import Mathlib

set_option maxRecDepth 100000

/-!
Verification development for `scripts/update_leaderboard.py`.

The Python script is shallowly embedded: Python `str` values are lists of
characters (`Str`), decimal numbers extracted by `_parse_float` are exact
decimals `num / 10 ^ pow` (`DecVal`; IEEE-754 rounding of `float` is modelled
by exact rational values), JSON snapshot payloads are Lean structures, and
every function of the script that the claims mention is translated into an
executable Lean function of the same shape.
-/

/-- Python `str`, modelled as its sequence of Unicode code points. -/
abbrev Str := List Char

/-- Characters matched by Python `str.strip()` and the regex class `\s`
(ASCII whitespace; the inputs at hand contain no exotic Unicode spaces). -/
def isWs (c : Char) : Bool :=
  c == ' ' || c == '\t' || c == '\n' || c == '\r' || c == '\x0b' || c == '\x0c'

/-- Python `str.strip()`: drop leading and trailing whitespace. -/
def pyStrip (s : Str) : Str :=
  ((s.dropWhile isWs).reverse.dropWhile isWs).reverse

/-- ASCII lowercasing of one character; models Python `str.casefold`/`lower`
on the ASCII inputs the script handles. -/
def lowChar (c : Char) : Char :=
  if 65 ≤ c.toNat && c.toNat ≤ 90 then Char.ofNat (c.toNat + 32) else c

/-- Python `str.casefold()` (ASCII fragment). -/
def pyLower (s : Str) : Str := s.map lowChar

/-- `p` is a prefix of `s` (Python `str.startswith`). -/
def hasPre : Str → Str → Bool
  | [], _ => true
  | _ :: _, [] => false
  | a :: p, b :: s => a == b && hasPre p s

/-- Python `pat in s` (substring containment). -/
def hasSub (pat : Str) : Str → Bool
  | [] => pat.isEmpty
  | c :: rest => hasPre pat (c :: rest) || hasSub pat rest

/-- Helper for `re.sub(r"\s+", " ", ·)`: the flag records whether the previous
character was whitespace (so a run contributes a single space). -/
def collapseWsAux : Bool → Str → Str
  | _, [] => []
  | prevWs, c :: rest =>
    if isWs c then
      (if prevWs then collapseWsAux true rest else ' ' :: collapseWsAux true rest)
    else c :: collapseWsAux false rest

/-- `re.sub(r"\s+", " ", s)`: every maximal whitespace run becomes one space. -/
def collapseWs (s : Str) : Str := collapseWsAux false s

/-- A decimal numeral value `num / 10 ^ pow`, the exact value of the Python
`float` produced by `_parse_float`. -/
structure DecVal where
  num : Int
  pow : Nat
deriving DecidableEq

/-- `10 ^ n` as an integer, by plain recursion (kernel-reducible). -/
def pow10 : Nat → Int
  | 0 => 1
  | n + 1 => 10 * pow10 n

/-- Value comparison of two decimals by cross-multiplication. -/
def dvLt (a b : DecVal) : Bool := a.num * pow10 b.pow < b.num * pow10 a.pow

/-- Value equality of two decimals by cross-multiplication. -/
def dvEq (a b : DecVal) : Bool := a.num * pow10 b.pow == b.num * pow10 a.pow

/-- Python `<` on strings: lexicographic comparison by code point. -/
def strLt : Str → Str → Bool
  | [], [] => false
  | [], _ :: _ => true
  | _ :: _, [] => false
  | a :: x, b :: y => a < b || (a == b && strLt x y)

/-- One normalized leaderboard entry (the row dicts built by the parsing
functions of the script). -/
structure CanonicalRow where
  team : Str
  auc : Option DecVal := none
  mrr : Option DecVal := none
  ndcg5 : Option DecVal := none
  ndcg10 : Option DecVal := none
  date_iso : Option Str := none
  date_display : Option Str := none
  date_raw : Option Str := none
deriving DecidableEq

/-- A per-source snapshot payload (the JSON documents the script caches).
A missing string field of the JSON dict is the empty string, matching the
`payload.get(k) or default` accesses in the script. -/
structure Payload where
  source : Str := []
  competition_id : Int := 0
  base_url : Str := []
  results_url : Str := []
  phase_id : Option Int := none
  results_id : Option Int := none
  method : Str := []
  fetched_at : Str := []
  note : Str := []
  rows : List CanonicalRow := []
deriving DecidableEq

/-- `RESULT_URLS` lookup (`dict.get`: `none` for unknown sources). -/
def resultUrls (source : Str) : Option Str :=
  if source = "codalab-old".data then some "https://competitions.codalab.org/competitions/24122#results".data
  else if source = "codalab-new".data then some "https://codalab.lisn.upsaclay.fr/competitions/420#results".data
  else if source = "codabench".data then some "https://www.codabench.org/competitions/13955/#/results-tab".data
  else none

/-- `_is_placeholder_payload`. -/
def is_placeholder_payload (p : Payload) : Bool :=
  hasPre "1970-01-01".data p.fetched_at
    || hasSub "placeholder".data (pyLower p.note)
    || p.rows.isEmpty

/-- `payload.get("source") or "unknown"` in `_combine_sources`. -/
def payloadSource (p : Payload) : Str :=
  if p.source = [] then "unknown".data else p.source

/-- `payload.get("results_url") or RESULT_URLS.get(source)` in `_combine_sources`. -/
def payloadResultsUrl (p : Payload) : Option Str :=
  if p.results_url = [] then resultUrls (payloadSource p) else some p.results_url

/-- A flattened row after `_combine_sources` stamps the source fields onto it. -/
structure StampedRow where
  row : CanonicalRow
  source : Str
  competition_id : Int
  results_url : Option Str
deriving DecidableEq

/-- A combined row after rank assignment. -/
structure RankedRow where
  stamped : StampedRow
  rank : Nat
deriving DecidableEq

/-- One entry of the combined output's `sources` list. -/
structure SourceMeta where
  source : Str
  competition_id : Int
  results_url : Option Str
  fetched_at : Str
deriving DecidableEq

/-- The combined leaderboard (`generated_at` is passed in as the value
`_utc_now_iso()` would return, making the time an explicit input). -/
structure CombinedLeaderboard where
  generated_at : Str
  sources : List SourceMeta
  rows : List RankedRow
deriving DecidableEq

/-- The 5-tuple produced by `_metric_sort_key`: the four metric values (a
missing metric behaves like `float("-inf")`, modelled by `none`) and the team
string. -/
structure MKey where
  auc : Option DecVal
  mrr : Option DecVal
  ndcg5 : Option DecVal
  ndcg10 : Option DecVal
  team : Str
deriving DecidableEq

/-- `_metric_sort_key` of a stamped row (the sort key reads only the metric
fields and the team of the row dict). -/
def metric_sort_key (r : StampedRow) : MKey :=
  ⟨r.row.auc, r.row.mrr, r.row.ndcg5, r.row.ndcg10, r.row.team⟩

/-- `<` on one key component: `none` is `-inf`, below every value. -/
def mvLt : Option DecVal → Option DecVal → Bool
  | none, none => false
  | none, some _ => true
  | some _, none => false
  | some a, some b => dvLt a b

/-- `==` on one key component (`-inf == -inf` holds). -/
def mvEq : Option DecVal → Option DecVal → Bool
  | none, none => true
  | some a, some b => dvEq a b
  | _, _ => false

/-- Python tuple `<` on two sort keys: lexicographic, component-wise. -/
def keyLt (k l : MKey) : Bool :=
  mvLt k.auc l.auc ||
    (mvEq k.auc l.auc && (mvLt k.mrr l.mrr ||
      (mvEq k.mrr l.mrr && (mvLt k.ndcg5 l.ndcg5 ||
        (mvEq k.ndcg5 l.ndcg5 && (mvLt k.ndcg10 l.ndcg10 ||
          (mvEq k.ndcg10 l.ndcg10 && strLt k.team l.team)))))))

/-- The row order realized by `combined_rows.sort(key=_metric_sort_key,
reverse=True)`: `x` may precede `y` iff the key of `x` is not less than the
key of `y` (the stable sort keeps the flattening order on ties). -/
def rowsOrder (x y : StampedRow) : Prop :=
  keyLt (metric_sort_key x) (metric_sort_key y) = false

instance : DecidableRel rowsOrder := fun x y =>
  inferInstanceAs (Decidable (keyLt (metric_sort_key x) (metric_sort_key y) = false))

/-- The source-stamping loop body of `_combine_sources` (step 2 of the spec). -/
def stampRow (p : Payload) (r : CanonicalRow) : StampedRow :=
  ⟨r, payloadSource p, p.competition_id, payloadResultsUrl p⟩

/-- All snapshots' rows flattened in input order, each stamped with its
payload's source metadata. -/
def flattenRows (payloads : List Payload) : List StampedRow :=
  (payloads.map (fun p => p.rows.map (stampRow p))).flatten

/-- The `sources` metadata entry recorded for a contributing payload. -/
def sourceMeta (p : Payload) : SourceMeta :=
  ⟨payloadSource p, p.competition_id, payloadResultsUrl p, p.fetched_at⟩

/-- `rank = i` for `i, r in enumerate(sorted_rows, 1)`. -/
def assignRanks : Nat → List StampedRow → List RankedRow
  | _, [] => []
  | i, x :: xs => ⟨x, i⟩ :: assignRanks (i + 1) xs

/-- `_combine_sources`: record metadata of payloads with at least one row,
flatten and stamp all rows, sort by the metric key descending (stable), and
assign 1-based ranks. -/
def combine_sources (now : Str) (payloads : List Payload) : CombinedLeaderboard :=
  { generated_at := now
    sources := (payloads.filter (fun p => !p.rows.isEmpty)).map sourceMeta
    rows := assignRanks 1 (List.insertionSort rowsOrder (flattenRows payloads)) }

/-- Value equality of two sort keys (Python tuple `==` on the 5-tuples). -/
def keyEqB (k l : MKey) : Bool :=
  mvEq k.auc l.auc && mvEq k.mrr l.mrr && mvEq k.ndcg5 l.ndcg5 &&
    mvEq k.ndcg10 l.ndcg10 && k.team == l.team

/-- The exact rational value of a decimal. -/
def DecVal.val (a : DecVal) : ℚ := (a.num : ℚ) / ((pow10 a.pow : Int) : ℚ)

/-- Semantic value of one metric component: a missing metric is `-inf` (`⊥`). -/
def mval : Option DecVal → WithBot ℚ
  | none => ⊥
  | some a => (a.val : WithBot ℚ)

/-- Semantic codomain of the sort key: the 5-tuple ordered lexicographically. -/
abbrev KVal :=
  Lex ((WithBot ℚ) × Lex ((WithBot ℚ) × Lex ((WithBot ℚ) × Lex ((WithBot ℚ) × List Char))))

/-- Semantic value of a sort key. -/
def keyVal (k : MKey) : KVal :=
  toLex (mval k.auc, toLex (mval k.mrr, toLex (mval k.ndcg5, toLex (mval k.ndcg10, k.team))))

/-- A payload whose two rows tie on all four metrics (all missing), with teams
"Alpha" then "Beta" in input order: the tie-break test input of the spec. -/
def tiePayload : Payload :=
  { source := "s".data
    fetched_at := "2024-01-01T00:00:00Z".data
    rows := [{ team := "Alpha".data }, { team := "Beta".data }] }

/-- Two payloads from distinct sources carrying bit-identical rows: the input
on which `_combine_sources` is not order-independent. -/
def dupRowPayloadA : Payload :=
  { source := "a".data, fetched_at := "t1".data
    rows := [{ team := "X".data, auc := some ⟨9, 1⟩ }] }

/-- See `dupRowPayloadA`. -/
def dupRowPayloadB : Payload :=
  { source := "b".data, fetched_at := "t2".data
    rows := [{ team := "X".data, auc := some ⟨9, 1⟩ }] }

/-- Two payloads with key-distinct rows, for the order-independence witness. -/
def distinctPayloadA : Payload :=
  { source := "a".data, fetched_at := "t1".data
    rows := [{ team := "X".data, auc := some ⟨9, 1⟩ }] }

/-- See `distinctPayloadA`. -/
def distinctPayloadB : Payload :=
  { source := "b".data, fetched_at := "t2".data
    rows := [{ team := "Y".data, auc := some ⟨95, 2⟩ }] }

/-- Error values raised by the load-or-fetch functions. -/
inductive LoadErr
  /-- `ValueError("Invalid --codabench-method: ...")`. -/
  | valueError
  /-- `RuntimeError("Cache missing for ...")`. -/
  | missingCache
  /-- The exception raised by the (abstracted) fetch step, re-raised. -/
  | fetchFailed (e : Str)
deriving DecidableEq

deriving instance DecidableEq for Except

/-- Result of one load-or-fetch call: the returned payload or raised error,
the number of warnings printed to stderr, the number of invocations of the
fetch step, and the payload written back to the cache file (if any). -/
structure LoadResult where
  result : Except LoadErr Payload
  warnings : Nat := 0
  fetches : Nat := 0
  written : Option Payload := none
deriving DecidableEq

/-- Python `int(v or d)` on an optional integer field (`0` is falsy). -/
def pyIntOr (v : Option Int) (d : Int) : Int :=
  match v with
  | some n => if n = 0 then d else n
  | none => d

/-- `CODABENCH_DEFAULT_PHASE_ID`. -/
def codabenchDefaultPhaseId : Int := 23177

/-- The payload dict built by `_codabench_load_or_fetch` after a successful
fetch. -/
def codabenchPayload (competition_id : Int) (base_url : Str) (phase_id : Int)
    (methodUsed : Str) (now : Str) (rows : List CanonicalRow) : Payload :=
  { source := "codabench".data
    competition_id := competition_id
    base_url := base_url
    results_url := "https://www.codabench.org/competitions/13955/#/results-tab".data
    phase_id := some phase_id
    method := methodUsed
    fetched_at := now
    rows := rows }

/-- `_codabench_load_or_fetch`. The cache file content (`none` when the file
does not exist), the `refresh` flag, the `--codabench-method` argument and the
outcome the inner `_fetch_rows()` call would produce (method-used tag and
parsed rows, or an exception message) are explicit inputs; `_utc_now_iso()`
is the input `now`. -/
def codabench_load_or_fetch (cache : Option Payload) (refresh : Bool)
    (method : Str) (fetchOutcome : Except Str (Str × List CanonicalRow))
    (competition_id : Int) (base_url : Str) (now : Str) : LoadResult :=
  match cache, refresh with
  | some c, false =>
    { result := .ok c
      warnings := if is_placeholder_payload c then 1 else 0 }
  | _, _ =>
    let phase_id :=
      match cache with
      | some c => pyIntOr c.phase_id codabenchDefaultPhaseId
      | none => codabenchDefaultPhaseId
    let m := pyLower (pyStrip (if method = [] then "scrape".data else method))
    if m ≠ "scrape".data ∧ m ≠ "csv".data ∧ m ≠ "auto".data then
      { result := .error .valueError }
    else
      match fetchOutcome with
      | .ok (methodUsed, rows) =>
        let payload := codabenchPayload competition_id base_url phase_id methodUsed now rows
        { result := .ok payload, fetches := 1, written := some payload }
      | .error e =>
        match cache with
        | some c =>
          if is_placeholder_payload c then
            { result := .error (.fetchFailed e), fetches := 1 }
          else
            { result := .ok c, warnings := 1, fetches := 1 }
        | none => { result := .error (.fetchFailed e), fetches := 1 }

/-- The payload dict built by `_codalab_load_or_fetch_from_results_csv` after
a successful fetch. -/
def codalabCsvPayload (source_name : Str) (competition_id : Int) (base_url : Str)
    (results_id : Int) (now : Str) (rows : List CanonicalRow) : Payload :=
  { source := source_name
    competition_id := competition_id
    base_url := base_url
    results_url := (resultUrls source_name).getD []
    results_id := some results_id
    fetched_at := now
    rows := rows }

/-- `_codalab_load_or_fetch_from_results_csv`. The fetch-and-parse step
(`_codalab_fetch_results_csv` + unzip + `_parse_generic_leaderboard_rows`) is
abstracted into its outcome `fetchOutcome`. -/
def codalab_load_or_fetch_from_results_csv (cache : Option Payload) (refresh : Bool)
    (fetchOutcome : Except Str (List CanonicalRow)) (source_name : Str)
    (competition_id : Int) (base_url : Str) (results_id : Int) (now : Str) : LoadResult :=
  match cache, refresh with
  | some c, false =>
    { result := .ok c
      warnings := if is_placeholder_payload c then 1 else 0 }
  | none, false => { result := .error .missingCache }
  | _, true =>
    match fetchOutcome with
    | .ok rows =>
      let payload := codalabCsvPayload source_name competition_id base_url results_id now rows
      { result := .ok payload, fetches := 1, written := some payload }
    | .error e => { result := .error (.fetchFailed e), fetches := 1 }

/-- The payload dict built by `_codalab_load_or_fetch` after a successful
fetch (the nested `phase` metadata object is omitted: no claim reads it). -/
def codalabApiPayload (source_name : Str) (competition_id : Int) (base_url : Str)
    (now : Str) (rows : List CanonicalRow) : Payload :=
  { source := source_name
    competition_id := competition_id
    base_url := base_url
    results_url := (resultUrls source_name).getD []
    fetched_at := now
    rows := rows }

/-- The fetch path of `_codalab_load_or_fetch` (phase listing, phase pick,
leaderboard fetch and `_codalab_parse_rows`, abstracted into `fetchOutcome`;
a failure to determine the phase id counts as a failing outcome). -/
def codalab_do_fetch (fetchOutcome : Except Str (List CanonicalRow)) (source_name : Str)
    (competition_id : Int) (base_url : Str) (now : Str) : LoadResult :=
  match fetchOutcome with
  | .ok rows =>
    let payload := codalabApiPayload source_name competition_id base_url now rows
    { result := .ok payload, fetches := 1, written := some payload }
  | .error e => { result := .error (.fetchFailed e), fetches := 1 }

/-- `_codalab_load_or_fetch`. A cached placeholder with `refresh=False`
triggers the recursive `refresh=True` call, which is exactly the fetch path;
if that fails, the placeholder is returned with a warning. -/
def codalab_load_or_fetch (cache : Option Payload) (refresh : Bool)
    (fetchOutcome : Except Str (List CanonicalRow)) (source_name : Str)
    (competition_id : Int) (base_url : Str) (now : Str) : LoadResult :=
  match cache, refresh with
  | some c, false =>
    if is_placeholder_payload c = false then { result := .ok c }
    else
      let r := codalab_do_fetch fetchOutcome source_name competition_id base_url now
      match r.result with
      | .ok _ => r
      | .error _ =>
        { result := .ok c, warnings := r.warnings + 1, fetches := r.fetches
          written := r.written }
  | none, false => { result := .error .missingCache }
  | _, true => codalab_do_fetch fetchOutcome source_name competition_id base_url now

/-- A concrete placeholder snapshot (epoch timestamp and zero rows). -/
def placeholderPayload : Payload :=
  { source := "codalab-new".data
    fetched_at := "1970-01-01T00:00:00Z".data
    rows := [] }

/-- A concrete valid (non-placeholder) snapshot. -/
def goodPayload : Payload :=
  { source := "codabench".data
    fetched_at := "2024-05-01T00:00:00Z".data
    rows := [{ team := "X".data, auc := some ⟨9, 1⟩ }] }


/-! ### Value normalizer: `_parse_float` -/

/-- Decimal digit test (regex `\d`, ASCII). -/
def isDig (c : Char) : Bool := 48 ≤ c.toNat && c.toNat ≤ 57

/-- Numeric value of a digit character. -/
def dval (c : Char) : Nat := c.toNat - 48

/-- `s.replace(",", "")`. -/
def removeCommas (s : Str) : Str := s.filter (fun c => c ≠ ',')

/-- Numeric value of a digit run (most significant digit first). -/
def digitsVal (s : Str) : Nat := s.foldl (fun acc c => 10 * acc + dval c) 0

/-- Match `[-+]?\d+(\.\d+)?` anchored at the start of `s`: optional sign, a
greedy digit run, and a fractional part only when `.` is directly followed by
a digit. Returns the exact decimal value. -/
def matchNumeralHere (s : Str) : Option DecVal :=
  let signed : Int × Str :=
    match s with
    | [] => (1, [])
    | c :: r => if c = '-' then (-1, r) else if c = '+' then (1, r) else (1, c :: r)
  match signed.2 with
  | c :: _ =>
    if isDig c then
      let intDigits := signed.2.takeWhile isDig
      let fr : Str :=
        match signed.2.dropWhile isDig with
        | d :: e :: r2 => if d = '.' ∧ isDig e then (e :: r2).takeWhile isDig else []
        | _ => []
      if fr = [] then some ⟨signed.1 * (digitsVal intDigits : Int), 0⟩
      else
        some ⟨signed.1 * ((digitsVal intDigits : Int) * pow10 fr.length + (digitsVal fr : Int)),
          fr.length⟩
    else none
  | [] => none

/-- `re.search(r"[-+]?\d+(\.\d+)?", s)`: the leftmost match. -/
def searchNumeral : Str → Option DecVal
  | [] => none
  | c :: rest =>
    match matchNumeralHere (c :: rest) with
    | some v => some v
    | none => searchNumeral rest

/-- `_parse_float` on a string (the `float()` call on the matched numeral
cannot raise, so the `except ValueError` branch is dead; the value is exact).
-/
def parse_float (v : Str) : Option DecVal :=
  let s := pyStrip v
  if s = [] then none
  else if pyLower s = "na".data ∨ pyLower s = "n/a".data ∨ pyLower s = "none".data
      ∨ pyLower s = "null".data ∨ pyLower s = "-".data then none
  else searchNumeral (removeCommas s)

/-- `_parse_float` applied to an optional cell (`None` input yields `None`).
-/
def parse_float_opt : Option Str → Option DecVal
  | none => none
  | some s => parse_float s

/-! ### Value normalizer: dates -/

/-- A Python `datetime` (only the fields the script reads). -/
structure PDate where
  year : Nat
  month : Nat
  day : Nat
  hour : Nat := 0
  minute : Nat := 0
  second : Nat := 0
deriving DecidableEq

/-- Gregorian leap year (as `datetime` validates). -/
def isLeap (y : Nat) : Bool := (y % 4 == 0 && y % 100 != 0) || y % 400 == 0

/-- Days in a month. -/
def daysInMonth (y m : Nat) : Nat :=
  if m = 2 then (if isLeap y then 29 else 28)
  else if m = 4 ∨ m = 6 ∨ m = 9 ∨ m = 11 then 30
  else 31

/-- The `datetime(year, month, day)` constructor's validity check. -/
def validDate (y m d : Nat) : Bool :=
  1 ≤ y && y ≤ 9999 && 1 ≤ m && m ≤ 12 && 1 ≤ d && d ≤ daysInMonth y m

/-- Exactly two digits. -/
def parse2 : Str → Option (Nat × Str)
  | a :: b :: r => if isDig a && isDig b then some (10 * dval a + dval b, r) else none
  | _ => none

/-- `%Y`: exactly four digits. -/
def parse4Y : Str → Option (Nat × Str)
  | a :: b :: c :: d :: r =>
    if isDig a && isDig b && isDig c && isDig d then
      some (1000 * dval a + 100 * dval b + 10 * dval c + dval d, r)
    else none
  | _ => none

/-- `%m` (`1[0-2]|0[1-9]|[1-9]`). The regex alternatives are tried longest
first; a shorter alternative can never rescue a failed continuation here
because every token following `%m`/`%d` in the formats at hand is a
non-digit, so committing to the longest alternative is faithful. -/
def parsePctM : Str → Option (Nat × Str)
  | a :: b :: r =>
    if a = '1' ∧ (b = '0' ∨ b = '1' ∨ b = '2') then some (10 + dval b, r)
    else if a = '0' ∧ isDig b ∧ b ≠ '0' then some (dval b, r)
    else if isDig a ∧ a ≠ '0' then some (dval a, b :: r)
    else none
  | [a] => if isDig a ∧ a ≠ '0' then some (dval a, []) else none
  | [] => none

/-- `%d` (`3[01]|[12]\d|0[1-9]|[1-9]`). -/
def parsePctD : Str → Option (Nat × Str)
  | a :: b :: r =>
    if a = '3' ∧ (b = '0' ∨ b = '1') then some (30 + dval b, r)
    else if (a = '1' ∨ a = '2') ∧ isDig b then some (10 * dval a + dval b, r)
    else if a = '0' ∧ isDig b ∧ b ≠ '0' then some (dval b, r)
    else if isDig a ∧ a ≠ '0' then some (dval a, b :: r)
    else none
  | [a] => if isDig a ∧ a ≠ '0' then some (dval a, []) else none
  | [] => none

/-- `%H` (`2[0-3]|[0-1]\d|\d`). -/
def parsePctH : Str → Option (Nat × Str)
  | a :: b :: r =>
    if a = '2' ∧ (b = '0' ∨ b = '1' ∨ b = '2' ∨ b = '3') then some (20 + dval b, r)
    else if (a = '0' ∨ a = '1') ∧ isDig b then some (10 * dval a + dval b, r)
    else if isDig a then some (dval a, b :: r)
    else none
  | [a] => if isDig a then some (dval a, []) else none
  | [] => none

/-- `%M` and `%S` (`[0-5]\d|\d`; the leap-second alternative of `%S` is
rejected by the `datetime` constructor anyway). -/
def parsePctMS : Str → Option (Nat × Str)
  | a :: b :: r =>
    if (48 ≤ a.toNat ∧ a.toNat ≤ 53) ∧ isDig b then some (10 * dval a + dval b, r)
    else if isDig a then some (dval a, b :: r)
    else none
  | [a] => if isDig a then some (dval a, []) else none
  | [] => none

/-- A literal character of a `strptime` format. -/
def lit (c : Char) : Str → Option Str
  | x :: r => if x = c then some r else none
  | [] => none

/-- Whitespace in a `strptime` format matches one or more whitespace
characters (`\s+`). -/
def ws1 : Str → Option Str
  | c :: r => if isWs c then some (r.dropWhile isWs) else none
  | [] => none

/-- The C-locale month abbreviations `%b` matches (case-insensitively,
exactly three letters). -/
def monthAbbrs : List Str :=
  ["jan".data, "feb".data, "mar".data, "apr".data, "may".data, "jun".data,
   "jul".data, "aug".data, "sep".data, "oct".data, "nov".data, "dec".data]

/-- The C-locale full month names `%B` matches. -/
def monthFulls : List Str :=
  ["january".data, "february".data, "march".data, "april".data, "may".data,
   "june".data, "july".data, "august".data, "september".data, "october".data,
   "november".data, "december".data]

/-- `%b`: three characters whose lowercase form is a month abbreviation. -/
def parseAbbrMonth : Str → Option (Nat × Str)
  | a :: b :: c :: r =>
    match monthAbbrs.findIdx? (fun m => m = [lowChar a, lowChar b, lowChar c]) with
    | some i => some (i + 1, r)
    | none => none
  | _ => none

/-- Helper for `%B`: try each full month name as a case-insensitive prefix. -/
def parseFullMonthAux : Nat → List Str → Str → Option (Nat × Str)
  | _, [], _ => none
  | i, m :: ms, s =>
    if hasPre m (pyLower s) then some (i + 1, s.drop m.length)
    else parseFullMonthAux (i + 1) ms s

/-- `%B`. -/
def parseFullMonth (s : Str) : Option (Nat × Str) := parseFullMonthAux 0 monthFulls s

/-- `strptime(s, "%Y-%m-%d")` (full match, then `datetime` validation). -/
def fmtYmd (s : Str) : Option PDate := do
  let (y, r1) ← parse4Y s
  let r2 ← lit '-' r1
  let (m, r3) ← parsePctM r2
  let r4 ← lit '-' r3
  let (d, r5) ← parsePctD r4
  if r5 = [] ∧ validDate y m d then pure { year := y, month := m, day := d } else none

/-- `strptime(s, "%Y-%m-%d %H:%M:%S")`. -/
def fmtYmdHms (s : Str) : Option PDate := do
  let (y, r1) ← parse4Y s
  let r2 ← lit '-' r1
  let (m, r3) ← parsePctM r2
  let r4 ← lit '-' r3
  let (d, r5) ← parsePctD r4
  let r6 ← ws1 r5
  let (hh, r7) ← parsePctH r6
  let r8 ← lit ':' r7
  let (mi, r9) ← parsePctMS r8
  let r10 ← lit ':' r9
  let (ss, r11) ← parsePctMS r10
  if r11 = [] ∧ validDate y m d ∧ hh < 24 ∧ mi < 60 ∧ ss < 60 then
    pure { year := y, month := m, day := d, hour := hh, minute := mi, second := ss }
  else none

/-- `strptime(s, "%b %d, %Y")`. -/
def fmtBdY (s : Str) : Option PDate := do
  let (m, r1) ← parseAbbrMonth s
  let r2 ← ws1 r1
  let (d, r3) ← parsePctD r2
  let r4 ← lit ',' r3
  let r5 ← ws1 r4
  let (y, r6) ← parse4Y r5
  if r6 = [] ∧ validDate y m d then pure { year := y, month := m, day := d } else none

/-- `strptime(s, "%b. %d, %Y")`. Note `%b` matches exactly the three-letter
abbreviation ("Sep"), never "Sept". -/
def fmtBDotdY (s : Str) : Option PDate := do
  let (m, r1) ← parseAbbrMonth s
  let r2 ← lit '.' r1
  let r3 ← ws1 r2
  let (d, r4) ← parsePctD r3
  let r5 ← lit ',' r4
  let r6 ← ws1 r5
  let (y, r7) ← parse4Y r6
  if r7 = [] ∧ validDate y m d then pure { year := y, month := m, day := d } else none

/-- `strptime(s, "%B %d, %Y")`. -/
def fmtBigBdY (s : Str) : Option PDate := do
  let (m, r1) ← parseFullMonth s
  let r2 ← ws1 r1
  let (d, r3) ← parsePctD r2
  let r4 ← lit ',' r3
  let r5 ← ws1 r4
  let (y, r6) ← parse4Y r5
  if r6 = [] ∧ validDate y m d then pure { year := y, month := m, day := d } else none

/-- `s.replace("Z", "+00:00")` (applied before the ISO attempt). -/
def replaceZ (s : Str) : Str :=
  (s.map (fun c => if c = 'Z' then "+00:00".data else [c])).flatten

/-- Optional fractional seconds and optional UTC offset of an ISO time, as
`datetime.fromisoformat` (Python 3.10 shapes) accepts them; the parsed values
beyond the second are discarded since the script never reads them. -/
def isoTail (s : Str) : Bool :=
  let afterFrac :=
    match s with
    | '.' :: r =>
      let fr := r.takeWhile isDig
      if fr.length = 3 ∨ fr.length = 6 then some (r.dropWhile isDig) else none
    | _ => some s
  match afterFrac with
  | none => false
  | some t =>
    match t with
    | [] => true
    | sgn :: t2 =>
      if sgn = '+' ∨ sgn = '-' then
        match parse2 t2 with
        | some (oh, ':' :: t3) =>
          (match parse2 t3 with
           | some (om, []) => oh < 24 && om < 60
           | _ => false)
        | _ => false
      else false

/-- `datetime.fromisoformat` (the Python 3.10 grammar fragment the script can
meet: `YYYY-MM-DD`, optionally followed by a `T`/space separator and
`HH:MM:SS` with optional fractional seconds and offset). -/
def fromisoformat (s : Str) : Option PDate := do
  let (y, r1) ← parse2 s
  let (y2, r2) ← parse2 r1
  let r3 ← lit '-' r2
  let (m, r4) ← parse2 r3
  let r5 ← lit '-' r4
  let (d, r6) ← parse2 r5
  let y := 100 * y + y2
  if ¬ validDate y m d then none
  else
    match r6 with
    | [] => pure { year := y, month := m, day := d }
    | sep :: r7 =>
      if sep = ' ' ∨ sep = 'T' then do
        let (hh, r8) ← parse2 r7
        let r9 ← lit ':' r8
        let (mi, r10) ← parse2 r9
        let r11 ← lit ':' r10
        let (ss, r12) ← parse2 r11
        if hh < 24 ∧ mi < 60 ∧ ss < 60 ∧ isoTail r12 then
          pure { year := y, month := m, day := d, hour := hh, minute := mi, second := ss }
        else none
      else none

/-- `_parse_date_any` on a string: ISO first (with `Z` replaced), then the
fixed format list in order. -/
def parse_date_any (v : Str) : Option PDate :=
  let s := pyStrip v
  if s = [] then none
  else
    match fromisoformat (replaceZ s) with
    | some d => some d
    | none =>
      match fmtYmdHms s with
      | some d => some d
      | none =>
        match fmtYmd s with
        | some d => some d
        | none =>
          match fmtBdY s with
          | some d => some d
          | none =>
            match fmtBDotdY s with
            | some d => some d
            | none => fmtBigBdY s

/-- `_parse_date_any` on an optional cell (`None` input yields `None`). -/
def parse_date_any_opt : Option Str → Option PDate
  | none => none
  | some s => parse_date_any s

/-- `n` rendered in decimal, zero-padded to width `w` (`"{:0wd}".format`). -/
def padZeros (w n : Nat) : Str :=
  List.replicate (w - (Nat.toDigits 10 n).length) '0' ++ Nat.toDigits 10 n

/-- `_month_abbr_with_dot`: `strftime("%b")` with `"Sept."` preferred over
`"Sep."`, dot appended. -/
def month_abbr_with_dot (m : Nat) : Str :=
  (match m with
   | 1 => "Jan." | 2 => "Feb." | 3 => "Mar." | 4 => "Apr." | 5 => "May."
   | 6 => "Jun." | 7 => "Jul." | 8 => "Aug." | 9 => "Sept." | 10 => "Oct."
   | 11 => "Nov." | _ => "Dec.").data

/-- `_format_date_display`. -/
def format_date_display : Option PDate → Option Str
  | none => none
  | some d =>
    some (month_abbr_with_dot d.month ++ " ".data ++ padZeros 2 d.day
      ++ ", ".data ++ padZeros 4 d.year)

/-- `_date_iso` (`dt.date().isoformat()`). -/
def date_iso : Option PDate → Option Str
  | none => none
  | some d =>
    some (padZeros 4 d.year ++ "-".data ++ padZeros 2 d.month ++ "-".data ++ padZeros 2 d.day)


/-! ### Column resolver and row normalizer -/

/-- `_norm_key`: strip, casefold, collapse internal whitespace runs. -/
def norm_key (s : Str) : Str := collapseWs (pyLower (pyStrip s))

/-- Helper for `dedupFirst`: `seen` holds the header strings already kept. -/
def dedupFirstAux (seen : List Str) : List Str → List Str
  | [] => []
  | h :: t =>
    if seen.contains h then dedupFirstAux seen t
    else h :: dedupFirstAux (h :: seen) t

/-- Key sequence of the Python dict `{h: _norm_key(h) for h in headers}`:
distinct header strings in first-occurrence order (a duplicate insertion
keeps the original position). -/
def dedupFirst (l : List Str) : List Str := dedupFirstAux [] l

/-- Pass 1 of `_find_column`: the normalized header equals some normalized
candidate (`nh in cand_norm`). -/
def exactMatch (cands : List Str) (h : Str) : Bool :=
  (cands.map norm_key).contains (norm_key h)

/-- Pass 2 of `_find_column`: some nonempty normalized candidate is a
substring of the normalized header (`c and c in nh`). -/
def subMatch (cands : List Str) (h : Str) : Bool :=
  (cands.map norm_key).any (fun c => !c.isEmpty && hasSub c (norm_key h))

/-- `_find_column` (headers equal to `None` are already absent from the
model's `List Str`). -/
def find_column (headers cands : List Str) : Option Str :=
  match (dedupFirst headers).find? (fun h => exactMatch cands h) with
  | some h => some h
  | none => (dedupFirst headers).find? (fun h => subMatch cands h)

/-- Candidate set for the team column. -/
def teamCands : List Str :=
  ["team".data, "team name".data, "participant".data, "user".data, "username".data]

/-- Candidate set for the date column in `_codabench_parse_table`. -/
def dateCandsTable : List Str :=
  ["date of last entry".data, "last entry".data, "submission date".data,
   "submitted".data, "date".data]

/-- Candidate set for AUC. -/
def aucCands : List Str := ["auc".data]

/-- Candidate set for MRR. -/
def mrrCands : List Str := ["mrr".data]

/-- Candidate set for nDCG@5. -/
def ndcg5Cands : List Str := ["ndcg@5".data, "ndcg5".data, "ndcg 5".data]

/-- Candidate set for nDCG@10. -/
def ndcg10Cands : List Str := ["ndcg@10".data, "ndcg10".data, "ndcg 10".data]

/-- `{h: i for i, h in enumerate(headers)}` lookup: the index of the last
occurrence of `h` (later dict insertions overwrite earlier ones). -/
def headerIndex (headers : List Str) (h : Str) : Option Nat :=
  match headers.reverse.findIdx? (fun x => x = h) with
  | some j => some (headers.length - 1 - j)
  | none => none

/-- The `cell` helper of `_codabench_parse_table`: `None` column or an
out-of-range index yields `None`, otherwise the row cell. -/
def cellAt (headers : List Str) (row : List Str) (col : Option Str) : Option Str :=
  match col with
  | none => none
  | some c =>
    match headerIndex headers c with
    | none => none
    | some i => row[i]?

/-- `(cell(row, team_col) or "").strip()`: the resolved team text of a raw
row. -/
def rowTeamText (headers : List Str) (row : List Str) : Str :=
  pyStrip ((cellAt headers row (find_column headers teamCands)).getD [])

/-- The row dict appended by `_codabench_parse_table` for one surviving raw
row (`date_raw` is never set by this parser). -/
def mkTableRow (headers : List Str) (row : List Str) : CanonicalRow :=
  let dt := parse_date_any_opt (cellAt headers row (find_column headers dateCandsTable))
  { team := rowTeamText headers row
    auc := parse_float_opt (cellAt headers row (find_column headers aucCands))
    mrr := parse_float_opt (cellAt headers row (find_column headers mrrCands))
    ndcg5 := parse_float_opt (cellAt headers row (find_column headers ndcg5Cands))
    ndcg10 := parse_float_opt (cellAt headers row (find_column headers ndcg10Cands))
    date_iso := date_iso dt
    date_display := format_date_display dt }

/-- The row loop of `_codabench_parse_table`: skip a raw row iff its resolved
team text is empty after stripping (`continue`), else append the parsed row.
-/
def parseTableRows (headers : List Str) : List (List Str) → List CanonicalRow
  | [] => []
  | row :: rest =>
    if rowTeamText headers row = [] then parseTableRows headers rest
    else mkTableRow headers row :: parseTableRows headers rest

/-- `_codabench_parse_table`. -/
def codabench_parse_table (headers : List Str) (rows_2d : List (List Str)) :
    List CanonicalRow :=
  if headers = [] ∨ rows_2d = [] then []
  else parseTableRows headers rows_2d


/-- A CSV dict row of `_csv_dict_rows` (a `csv.DictReader` mapping): keys are
the fieldnames, a value of `none` stands for a cell the reader filled with
`None` (a missing key and a `None` value behave identically in every lookup
the script performs). The reader's optional `None` overflow key is omitted:
`_parse_generic_leaderboard_rows` filters it out of `headers` and never looks
it up. The association list records dict assignments in order, so the key
sequence is its first-occurrence dedup and a lookup returns the last
assignment. -/
def dictGet (r : List (Str × Option Str)) (k : Str) : Option Str :=
  match r.reverse.find? (fun p => p.1 = k) with
  | some p => p.2
  | none => none

/-- `(r.get(col) if col else None)` of `_parse_generic_leaderboard_rows`. -/
def dictCell (r : List (Str × Option Str)) : Option Str → Option Str
  | none => none
  | some c => dictGet r c

/-- `str((r.get(team_col) if team_col else None) or "").strip()`: the resolved
team text of a dict row. -/
def genTeamText (headers : List Str) (r : List (Str × Option Str)) : Str :=
  pyStrip ((dictCell r (find_column headers teamCands)).getD [])

/-- The row dict appended by `_parse_generic_leaderboard_rows` for one
surviving dict row: unlike `_codabench_parse_table` it also records
`date_raw` (the stripped date text, `None` when empty) and falls back to the
raw text for `date_display` when the date fails to parse. -/
def genericRow (headers : List Str) (r : List (Str × Option Str)) : CanonicalRow :=
  let date_raw_s := pyStrip ((dictCell r (find_column headers dateCandsTable)).getD [])
  let dt := if date_raw_s = [] then none else parse_date_any date_raw_s
  { team := genTeamText headers r
    auc := parse_float_opt (dictCell r (find_column headers aucCands))
    mrr := parse_float_opt (dictCell r (find_column headers mrrCands))
    ndcg5 := parse_float_opt (dictCell r (find_column headers ndcg5Cands))
    ndcg10 := parse_float_opt (dictCell r (find_column headers ndcg10Cands))
    date_iso := date_iso dt
    date_display :=
      match dt with
      | some p => format_date_display (some p)
      | none => if date_raw_s = [] then none else some date_raw_s
    date_raw := if date_raw_s = [] then none else some date_raw_s }

/-- The row loop of `_parse_generic_leaderboard_rows`: skip a dict row iff
its resolved team text is empty after stripping (`continue`), else append the
parsed row. -/
def parseGenericRows (headers : List Str) :
    List (List (Str × Option Str)) → List CanonicalRow
  | [] => []
  | r :: rest =>
    if genTeamText headers r = [] then parseGenericRows headers rest
    else genericRow headers r :: parseGenericRows headers rest

/-- `headers = [h for h in dict_rows[0].keys() if h is not None]`: the key
sequence of the first dict row (`[]` for an empty row list). -/
def genHeaders (dict_rows : List (List (Str × Option Str))) : List Str :=
  match dict_rows with
  | [] => []
  | r0 :: _ => dedupFirst (r0.map Prod.fst)

/-- `_parse_generic_leaderboard_rows`, from the `_csv_dict_rows` output. -/
def parse_generic_leaderboard_rows
    (dict_rows : List (List (Str × Option Str))) : List CanonicalRow :=
  match dict_rows with
  | [] => []
  | r0 :: _ => parseGenericRows (dedupFirst (r0.map Prod.fst)) dict_rows


/-! ### Renderer and document injection (`_render_leaderboard_rows_html`,
`_update_index_html_leaderboard`) -/

/-- Decimal digits of `n` (own recursion, kernel-reducible, charset provable).
-/
def natDecAux : Nat → Nat → Str
  | 0, _ => []
  | f + 1, n =>
    if n < 10 then [Char.ofNat (48 + n)]
    else natDecAux f (n / 10) ++ [Char.ofNat (48 + n % 10)]

/-- `str(n)` for a natural number. -/
def natDecStr (n : Nat) : Str := natDecAux (n + 1) n

/-- `n` zero-padded to `w` digits. -/
def padZ (w n : Nat) : Str := List.replicate (w - (natDecStr n).length) '0' ++ natDecStr n

/-- Round `n / d` half to even (`d > 0`), as float formatting does. -/
def rhe (n d : Int) : Int :=
  let q := n.fdiv d
  let r := n.fmod d
  if 2 * r < d then q else if d < 2 * r then q + 1 else if q % 2 = 0 then q else q + 1

/-- `"%.4f"`-format of an exact decimal (half-even rounding of the value; the
binary-double rounding step of CPython is modelled on the decimal itself). -/
def fmt4dp (v : DecVal) : Str :=
  let scaled : Int :=
    if v.pow ≤ 4 then v.num * pow10 (4 - v.pow) else rhe v.num (pow10 (v.pow - 4))
  let a : Nat := scaled.natAbs
  let digits := natDecStr (a / 10000) ++ '.' :: padZ 4 (a % 10000)
  if scaled < 0 ∨ (scaled = 0 ∧ v.num < 0) then '-' :: digits else digits

/-- `fmt_metric` in `_render_leaderboard_rows_html`: `""` when the metric is
missing (`float(None)` raises), else the 4-decimal rendering. -/
def fmt_metric : Option DecVal → Str
  | none => []
  | some v => fmt4dp v

/-- Python `x or y` for an optional string (`None` and `""` are falsy). -/
def pyOrStr (v : Option Str) (d : Str) : Str :=
  match v with
  | some s => if s = [] then d else s
  | none => d

/-- `r.get("date_display") or r.get("date_raw") or ""`. -/
def dateTextOf (r : RankedRow) : Str :=
  pyOrStr r.stamped.row.date_display (pyOrStr r.stamped.row.date_raw [])

/-- The 22 lines `_render_leaderboard_rows_html` appends for row `r` at
1-based position `i` (exact markup, indentation included). -/
def renderRowLines (i : Nat) (r : RankedRow) : List Str :=
  let cls : Str := if i % 2 = 1 then "leaderboardline".data else "leaderboardlinemask".data
  let rank : Nat := if r.rank = 0 then i else r.rank
  [ "                            <tr class='".data ++ cls ++ "'>".data,
    "                                <td>".data,
    "                                    <p class=\"word-break2\">".data,
    "                                        ".data ++ natDecStr rank,
    "                                    </p><span class=\"date label label-default\">".data
      ++ dateTextOf r ++ "</span>".data,
    "                                </td>".data,
    "                                <td class=\"word-break\">".data,
    "                                    ".data ++ r.stamped.row.team,
    "                                </td>".data,
    "                                <td class=\"word-break\">".data,
    "                                    <b>".data ++ fmt_metric r.stamped.row.auc ++ "</b>".data,
    "                                </td>".data,
    "                                <td class=\"word-break\">".data,
    "                                    <b>".data ++ fmt_metric r.stamped.row.mrr ++ "</b>".data,
    "                                </td>".data,
    "                                <td class=\"word-break\">".data,
    "                                    <b>".data ++ fmt_metric r.stamped.row.ndcg5 ++ "</b>".data,
    "                                </td>".data,
    "                                <td class=\"word-break\">".data,
    "                                    <b>".data ++ fmt_metric r.stamped.row.ndcg10 ++ "</b>".data,
    "                                </td>".data,
    "                            </tr>".data ]

/-- All output lines over all rows (`enumerate(rows, 1)`). -/
def renderAllLines : Nat → List RankedRow → List Str
  | _, [] => []
  | i, r :: rest => renderRowLines i r ++ renderAllLines (i + 1) rest

/-- `"\n".join`. -/
def joinNl : List Str → Str
  | [] => []
  | [l] => l
  | l :: l2 :: rest => l ++ '\n' :: joinNl (l2 :: rest)

/-- `_render_leaderboard_rows_html`: joined lines plus a trailing newline when
any row was rendered. -/
def render_leaderboard_rows_html (rows : List RankedRow) : Str :=
  let lines := renderAllLines 1 rows
  if lines = [] then [] else joinNl lines ++ ['\n']

/-- The fixed `header_html` of `_update_index_html_leaderboard`. -/
def headerHtml : Str :=
  joinNl
    [ "                        <table class=\"table performanceTable\">".data,
      "                            <tr class='leaderboardhead'>".data,
      "                                <th>".data,
      "                                    Rank".data,
      "                                </th>".data,
      "                                <th>".data,
      "                                    Team".data,
      "                                </th>".data,
      "                                <th>".data,
      "                                    AUC".data,
      "                                </th>".data,
      "                                <th>".data,
      "                                    MRR".data,
      "                                </th>".data,
      "                                <th>".data,
      "                                    nDCG@5".data,
      "                                </th>".data,
      "                                <th>".data,
      "                                    nDCG@10".data,
      "                                </th>".data,
      "                            </tr>".data ]

/-- The closing line appended after the rendered rows. -/
def tableFooter : Str := "                        </table>".data

/-- `new_table_html`. -/
def newTableHtml (rows : List RankedRow) : Str :=
  headerHtml ++ '\n' :: (render_leaderboard_rows_html rows ++ tableFooter)

/-- `'<h1 id="leaderboard">'`. -/
def anchorStr : Str := "<h1 id=\"leaderboard\">".data

/-- `'<table class="table performanceTable"'`. -/
def markerStr : Str := "<table class=\"table performanceTable\"".data

/-- `"</table>"`. -/
def closeTableStr : Str := "</table>".data

/-- `"leaderboard.js"`, the literal every legacy-script match must contain. -/
def lbjsStr : Str := "leaderboard.js".data

/-- The fixed literal of the legacy-script regex between `<script` and the
second `<script`. -/
def srcLit : Str := "src=\"./assets/data/leaderboard.js\"></script>".data

/-- Helper for `str.find`: first index (counting from `i`) where `pat` starts
in the remaining text. -/
def findSubAux (pat : Str) : Str → Nat → Option Nat
  | [], i => if pat = [] then some i else none
  | c :: rest, i => if hasPre pat (c :: rest) then some i else findSubAux pat rest (i + 1)

/-- Python `s.find(pat, start)` (`none` for `-1`). -/
def findSub (s pat : Str) (start : Nat) : Option Nat :=
  findSubAux pat (s.drop start) start

/-- Index of the last occurrence of character `c` in `l`. -/
def rfindChar (c : Char) : Str → Option Nat
  | [] => none
  | x :: rest =>
    match rfindChar c rest with
    | some j => some (j + 1)
    | none => if x = c then some 0 else none

/-- Attempt the legacy-script regex
`\s*<script\s+src="./assets/data/leaderboard.js"></script>\s*<script[\s\S]*?</script>`
anchored at the start of `s`; returns the matched length. The quantifiers are
deterministic here: each greedy `\s` run ends at a non-space literal, and the
lazy block ends at the first `</script>`. -/
def matchLegacyAt (s : Str) : Option Nat :=
  let t1 := s.dropWhile isWs
  if hasPre "<script".data t1 then
    let t2 := t1.drop 7
    match t2 with
    | [] => none
    | c :: _ =>
      if isWs c then
        let t3 := t2.dropWhile isWs
        if hasPre srcLit t3 then
          let t4 := t3.drop srcLit.length
          let t5 := t4.dropWhile isWs
          if hasPre "<script".data t5 then
            let t6 := t5.drop 7
            match findSub t6 "</script>".data 0 with
            | some j => some (s.length - t6.length + j + 9)
            | none => none
          else none
        else none
      else none
  else none

/-- Leftmost match of the legacy-script regex: start position and length. -/
def removeLegacyAux : Str → Nat → Option (Nat × Nat)
  | [], _ => none
  | c :: rest, i =>
    match matchLegacyAt (c :: rest) with
    | some len => some (i, len)
    | none => removeLegacyAux rest (i + 1)

/-- `re.sub(..., "", html2, count=1)`: delete the leftmost match, if any. -/
def removeLegacyScript (s : Str) : Str :=
  match removeLegacyAux s 0 with
  | some (i, len) => s.take i ++ s.drop (i + len)
  | none => s

/-- `_update_index_html_leaderboard` as a function on the document text
(`none` models the `RuntimeError` raises; the file write is the returned
string). -/
def update_index_html_leaderboard (html : Str) (combined : CombinedLeaderboard) :
    Option Str :=
  match findSub html anchorStr 0 with
  | none => none
  | some anchor =>
    match findSub html markerStr anchor with
    | none => none
    | some table_start =>
      let table_replace_start :=
        match rfindChar '\n' (html.take table_start) with
        | some ls => ls + 1
        | none => table_start
      match findSub html closeTableStr table_start with
      | none => none
      | some te0 =>
        let table_end := te0 + closeTableStr.length
        let html2 := html.take table_replace_start
          ++ newTableHtml combined.rows ++ html.drop table_end
        some (removeLegacyScript html2)

/-- A rendered cell is clean when it contains neither `"</table>"` (which
would corrupt the close-tag search of a later injection) nor
`"leaderboard.js"` (which could activate the legacy-script removal). -/
def cellCleanB (s : Str) : Bool :=
  !hasSub closeTableStr s && !hasSub lbjsStr s


/-- The 24-space indentation used by the injected table markup. -/
def spaces24 : Str := "                        ".data

/-- `new_table_html` without its final `"</table>"`: header, newline, rendered
rows, and the closing line's indentation. -/
def tableBody (rows : List RankedRow) : Str :=
  headerHtml ++ '\n' :: (render_leaderboard_rows_html rows ++ spaces24)

/-- A document whose marked table line is not preceded by a newline. -/
def cxDoc : Str :=
  "<h1 id=\"leaderboard\"></h1><table class=\"table performanceTable\">x</table>".data

/-- An empty combined leaderboard. -/
def cxCl : CombinedLeaderboard :=
  { generated_at := [], sources := [], rows := [] }

/-- A document whose marked table line is preceded by a newline. -/
def wDoc : Str :=
  ("<h1 id=\"leaderboard\"></h1>\n".data
    ++ "<table class=\"table performanceTable\">y</table>".data)

/-- An empty combined leaderboard (second copy, for the idempotence witness). -/
def wCl : CombinedLeaderboard :=
  { generated_at := [], sources := [], rows := [] }

/-! ### Order-theoretic facts about the sort key -/

theorem pow10_pos (n : Nat) : (0 : Int) < pow10 n := by
  induction n with
  | zero => simp [pow10]
  | succ n ih => rw [pow10]; omega

theorem pow10_pos_rat (n : Nat) : (0 : ℚ) < ((pow10 n : Int) : ℚ) := by
  exact_mod_cast pow10_pos n

theorem dvLt_iff (a b : DecVal) : dvLt a b = true ↔ a.val < b.val := by
  rw [dvLt, decide_eq_true_iff, DecVal.val, DecVal.val,
    div_lt_div_iff₀ (pow10_pos_rat a.pow) (pow10_pos_rat b.pow)]
  exact_mod_cast Iff.rfl

theorem dvEq_iff (a b : DecVal) : dvEq a b = true ↔ a.val = b.val := by
  rw [dvEq, beq_iff_eq, DecVal.val, DecVal.val,
    div_eq_div_iff (pow10_pos_rat a.pow).ne' (pow10_pos_rat b.pow).ne']
  exact_mod_cast Iff.rfl

theorem mvLt_iff (x y : Option DecVal) : mvLt x y = true ↔ mval x < mval y := by
  cases x <;> cases y <;>
    simp [mvLt, mval, dvLt_iff, WithBot.bot_lt_coe, WithBot.coe_lt_coe, not_lt_bot]

theorem mvEq_iff (x y : Option DecVal) : mvEq x y = true ↔ mval x = mval y := by
  cases x <;> cases y <;>
    simp [mvEq, mval, dvEq_iff, WithBot.coe_ne_bot, WithBot.bot_ne_coe]

theorem strLt_iff (s t : Str) : strLt s t = true ↔ s < t := by
  show strLt s t = true ↔ List.Lex (· < ·) s t
  induction s generalizing t with
  | nil =>
    cases t with
    | nil => exact iff_of_false (by simp [strLt]) (List.Lex.not_nil_right _ _)
    | cons b y => exact iff_of_true rfl List.Lex.nil
  | cons a x ih =>
    cases t with
    | nil => exact iff_of_false (by simp [strLt]) (List.Lex.not_nil_right _ _)
    | cons b y =>
      rw [strLt]
      simp only [Bool.or_eq_true, Bool.and_eq_true, decide_eq_true_iff, beq_iff_eq, ih]
      constructor
      · rintro (h | ⟨rfl, h⟩)
        · exact List.Lex.rel h
        · exact List.Lex.cons h
      · intro h
        cases h with
        | rel h => exact Or.inl h
        | cons h => exact Or.inr ⟨rfl, h⟩

theorem keyLt_iff (k l : MKey) : keyLt k l = true ↔ keyVal k < keyVal l := by
  rw [keyVal, keyVal]
  rw [Prod.Lex.lt_iff, Prod.Lex.lt_iff, Prod.Lex.lt_iff, Prod.Lex.lt_iff]
  simp only [keyLt, Bool.or_eq_true, Bool.and_eq_true, mvLt_iff, mvEq_iff, strLt_iff,
    toLex_inj, Prod.mk.injEq]

theorem keyEqB_iff (k l : MKey) : keyEqB k l = true ↔ keyVal k = keyVal l := by
  simp only [keyEqB, Bool.and_eq_true, mvEq_iff, beq_iff_eq, keyVal, toLex_inj,
    Prod.mk.injEq]
  tauto

theorem rowsOrder_iff (x y : StampedRow) :
    rowsOrder x y ↔ keyVal (metric_sort_key y) ≤ keyVal (metric_sort_key x) := by
  rw [rowsOrder, ← Bool.not_eq_true, keyLt_iff, not_lt]

instance : IsTrans StampedRow rowsOrder :=
  ⟨fun _ _ _ hab hbc => by
    rw [rowsOrder_iff] at *
    exact le_trans hbc hab⟩

instance : IsTotal StampedRow rowsOrder :=
  ⟨fun a b => by
    rw [rowsOrder_iff, rowsOrder_iff]
    exact le_total _ _⟩

theorem assignRanks_map_rank (i : Nat) (l : List StampedRow) :
    (assignRanks i l).map RankedRow.rank = List.range' i l.length := by
  induction l generalizing i with
  | nil => rfl
  | cons x xs ih => simp [assignRanks, List.range', ih]

theorem assignRanks_map_stamped (i : Nat) (l : List StampedRow) :
    (assignRanks i l).map RankedRow.stamped = l := by
  induction l generalizing i with
  | nil => rfl
  | cons x xs ih => simp [assignRanks, ih]

/-- Two lists that are permutations of each other and both sorted by `r` are
equal, provided `r` is antisymmetric on the elements actually present. -/
theorem eq_of_perm_of_sorted_of_anti {α : Type} {r : α → α → Prop} :
    ∀ {l₁ l₂ : List α}, l₁.Perm l₂ → List.Sorted r l₁ → List.Sorted r l₂ →
      (∀ x ∈ l₁, ∀ y ∈ l₁, r x y → r y x → x = y) → l₁ = l₂ := by
  intro l₁
  induction l₁ with
  | nil =>
    intro l₂ p _ _ _
    exact p.nil_eq
  | cons a t ih =>
    intro l₂ p s₁ s₂ anti
    cases l₂ with
    | nil => exact absurd p.symm.nil_eq (by simp)
    | cons b u =>
      have hmem_a : a ∈ b :: u := p.subset (List.mem_cons_self a t)
      have hmem_b : b ∈ a :: t := p.symm.subset (List.mem_cons_self b u)
      have hab : a = b := by
        rcases List.mem_cons.mp hmem_a with h | ha
        · exact h
        rcases List.mem_cons.mp hmem_b with h | hb
        · exact h.symm
        have hrab : r a b := List.rel_of_sorted_cons s₁ b hb
        have hrba : r b a := List.rel_of_sorted_cons s₂ a ha
        exact anti a (List.mem_cons_self a t) b (List.mem_cons.mpr (Or.inr hb)) hrab hrba
      subst hab
      have ht : t.Perm u := p.cons_inv
      have : t = u := by
        refine ih ht s₁.of_cons s₂.of_cons ?_
        intro x hx y hy
        exact anti x (List.mem_cons.mpr (Or.inr hx)) y (List.mem_cons.mpr (Or.inr hy))
      rw [this]

theorem perm_flattenRows {ps qs : List Payload} (h : ps.Perm qs) :
    (flattenRows ps).Perm (flattenRows qs) :=
  (h.map _).flatten

/-- **C1.** For every list of input snapshots, `_combine_sources` orders the
flattened stamped rows by the metric sort key (descending on every component,
missing metrics at `-inf`, ties on all four metrics broken reverse-
alphabetically by team, as realized by `rowsOrder`), assigns each row its
1-based position as `rank` (the ranks are exactly `1..n`), and on the concrete
all-tied input (teams "Alpha" then "Beta") ranks "Beta" first. -/
theorem c1_combine_sorts_and_ranks (now : Str) (payloads : List Payload) :
    ((combine_sources now payloads).rows.map RankedRow.rank
        = List.range' 1 (flattenRows payloads).length)
    ∧ List.Sorted rowsOrder ((combine_sources now payloads).rows.map RankedRow.stamped)
    ∧ ((combine_sources now payloads).rows.map RankedRow.stamped).Perm (flattenRows payloads)
    ∧ ((combine_sources [] [tiePayload]).rows.map (fun r => (r.stamped.row.team, r.rank))
        = [("Beta".data, 1), ("Alpha".data, 2)]) := by
  refine ⟨?_, ?_, ?_, by decide⟩
  · rw [combine_sources]
    simp only [assignRanks_map_rank]
    rw [(List.perm_insertionSort rowsOrder (flattenRows payloads)).length_eq]
  · rw [combine_sources]
    simp only [assignRanks_map_stamped]
    exact List.sorted_insertionSort rowsOrder (flattenRows payloads)
  · rw [combine_sources]
    simp only [assignRanks_map_stamped]
    exact List.perm_insertionSort rowsOrder (flattenRows payloads)

/-- **C2 (amended).** `_combine_sources` is a pure function of its inputs, and
its row sequence is independent of the order of the input snapshot list
whenever the flattened rows carry pairwise distinct sort keys; on key ties
between rows of different snapshots the stable sort preserves flattening
order, so unconditional permutation-independence fails (see the
counterexample). -/
theorem c2_combine_order_independence (now : Str) (ps qs : List Payload)
    (hperm : ps.Perm qs)
    (hkeys : (flattenRows ps).Pairwise
      (fun x y => keyEqB (metric_sort_key x) (metric_sort_key y) = false)) :
    (combine_sources now ps).rows = (combine_sources now qs).rows := by
  rw [combine_sources, combine_sources]
  simp only []
  have hsortEq : List.insertionSort rowsOrder (flattenRows ps)
      = List.insertionSort rowsOrder (flattenRows qs) := by
    have hp : (List.insertionSort rowsOrder (flattenRows ps)).Perm
        (List.insertionSort rowsOrder (flattenRows qs)) :=
      ((List.perm_insertionSort rowsOrder (flattenRows ps)).trans
        (perm_flattenRows hperm)).trans
        (List.perm_insertionSort rowsOrder (flattenRows qs)).symm
    refine eq_of_perm_of_sorted_of_anti hp
      (List.sorted_insertionSort rowsOrder (flattenRows ps))
      (List.sorted_insertionSort rowsOrder (flattenRows qs)) ?_
    have hsym : Symmetric
        (fun x y : StampedRow => keyEqB (metric_sort_key x) (metric_sort_key y) = false) := by
      intro x y h
      rw [← Bool.not_eq_true, keyEqB_iff] at h ⊢
      exact fun e => h e.symm
    intro x hx y hy hxy hyx
    by_contra hne
    have hx' : x ∈ flattenRows ps :=
      (List.perm_insertionSort rowsOrder (flattenRows ps)).subset hx
    have hy' : y ∈ flattenRows ps :=
      (List.perm_insertionSort rowsOrder (flattenRows ps)).subset hy
    have hkd := hkeys.forall hsym hx' hy' hne
    rw [← Bool.not_eq_true, keyEqB_iff] at hkd
    rw [rowsOrder_iff] at hxy hyx
    exact hkd (le_antisymm hyx hxy)
  rw [hsortEq]

/-- **C2 counterexample.** Two snapshots from different sources carrying
bit-identical rows (equal sort keys): permuting the input list changes the
output row sequence (the stamped `source` of the rank-1 row differs), so the
claim as stated — identical rows for every permutation — is false. -/
theorem c2_counterexample :
    ([dupRowPayloadA, dupRowPayloadB].Perm [dupRowPayloadB, dupRowPayloadA])
    ∧ (combine_sources [] [dupRowPayloadA, dupRowPayloadB]).rows
        ≠ (combine_sources [] [dupRowPayloadB, dupRowPayloadA]).rows := by
  exact ⟨by decide, by decide⟩

/-- Witness for `c2_combine_order_independence` at a concrete key-distinct
input. -/
theorem c2_combine_order_independence_witness :
    (([distinctPayloadA, distinctPayloadB] : List Payload).Perm
        [distinctPayloadB, distinctPayloadA])
    ∧ (flattenRows [distinctPayloadA, distinctPayloadB]).Pairwise
        (fun x y => keyEqB (metric_sort_key x) (metric_sort_key y) = false)
    ∧ (combine_sources [] [distinctPayloadA, distinctPayloadB]).rows
        = (combine_sources [] [distinctPayloadB, distinctPayloadA]).rows :=
  ⟨by decide, by decide,
    c2_combine_order_independence [] [distinctPayloadA, distinctPayloadB]
      [distinctPayloadB, distinctPayloadA] (by decide) (by decide)⟩

/-- **C3.** In `_codabench_load_or_fetch`, whenever the fetch step is reached
(no cache hit short-circuits it) and fails: if a prior cached snapshot exists
and is not a placeholder, the call warns and returns the stale snapshot; if no
cache exists, or the cache is a placeholder, the fetch failure propagates. -/
theorem c3_codabench_stale_fallback (cache : Option Payload) (refresh : Bool)
    (method : Str) (e : Str) (cid : Int) (burl : Str) (now : Str)
    (hreach : cache = none ∨ refresh = true)
    (hmethod : pyLower (pyStrip (if method = [] then "scrape".data else method)) = "scrape".data
      ∨ pyLower (pyStrip (if method = [] then "scrape".data else method)) = "csv".data
      ∨ pyLower (pyStrip (if method = [] then "scrape".data else method)) = "auto".data) :
    (∀ c, cache = some c → is_placeholder_payload c = false →
      (codabench_load_or_fetch cache refresh method (.error e) cid burl now).result = .ok c
        ∧ 1 ≤ (codabench_load_or_fetch cache refresh method (.error e) cid burl now).warnings)
    ∧ ((∀ c, cache = some c → is_placeholder_payload c = true) →
      (codabench_load_or_fetch cache refresh method (.error e) cid burl now).result
        = .error (.fetchFailed e)) := by
  constructor
  · rintro c rfl hc
    rcases hreach with h | h
    · exact absurd h (by simp)
    · subst h
      rcases hmethod with h | h | h <;>
        simp [codabench_load_or_fetch, h, hc]
  · intro hph
    rcases cache with _ | c
    · rcases refresh with _ | _ <;> rcases hmethod with h | h | h <;>
        simp [codabench_load_or_fetch, h]
    · rcases hreach with h | h
      · exact absurd h (by simp)
      · subst h
        rcases hmethod with h | h | h <;>
          simp [codabench_load_or_fetch, h, hph c rfl]

/-- Witness for `c3_codabench_stale_fallback`: a valid cached snapshot, an
explicit refresh whose fetch fails, default method. -/
theorem c3_codabench_stale_fallback_witness :
    ((some goodPayload = (none : Option Payload) ∨ true = true)
      ∧ (pyLower (pyStrip (if ("scrape".data : Str) = [] then "scrape".data else "scrape".data))
            = "scrape".data
          ∨ pyLower (pyStrip (if ("scrape".data : Str) = [] then "scrape".data else "scrape".data))
            = "csv".data
          ∨ pyLower (pyStrip (if ("scrape".data : Str) = [] then "scrape".data else "scrape".data))
            = "auto".data))
    ∧ ((codabench_load_or_fetch (some goodPayload) true "scrape".data (.error "boom".data)
          13955 "https://www.codabench.org".data "t".data).result = .ok goodPayload
        ∧ 1 ≤ (codabench_load_or_fetch (some goodPayload) true "scrape".data (.error "boom".data)
          13955 "https://www.codabench.org".data "t".data).warnings) :=
  ⟨⟨Or.inr rfl, by decide⟩,
    (c3_codabench_stale_fallback (some goodPayload) true "scrape".data "boom".data
      13955 "https://www.codabench.org".data "t".data (Or.inr rfl) (by decide)).1
      goodPayload rfl (by decide)⟩

/-- **C4 (amended).** With `refresh=False` and no cached snapshot, the two
CodaLab loaders fail with the missing-cache error and perform no fetch; the
CodaBench loader has no such guard and instead performs the fetch. -/
theorem c4_missing_cache (fo : Except Str (List CanonicalRow))
    (foB : Except Str (Str × List CanonicalRow)) (method : Str) (sn : Str)
    (cid : Int) (burl : Str) (rid : Int) (now : Str)
    (hmethod : pyLower (pyStrip (if method = [] then "scrape".data else method)) = "scrape".data
      ∨ pyLower (pyStrip (if method = [] then "scrape".data else method)) = "csv".data
      ∨ pyLower (pyStrip (if method = [] then "scrape".data else method)) = "auto".data) :
    (codalab_load_or_fetch_from_results_csv none false fo sn cid burl rid now
        = { result := .error .missingCache })
    ∧ (codalab_load_or_fetch none false fo sn cid burl now
        = { result := .error .missingCache })
    ∧ (codabench_load_or_fetch none false method foB cid burl now).fetches = 1 := by
  refine ⟨rfl, rfl, ?_⟩
  rcases foB with e | ⟨mu, rows⟩ <;> rcases hmethod with h | h | h <;>
    simp [codabench_load_or_fetch, h]

/-- **C4 counterexample.** The CodaBench loader called with `refresh=False`
and no cache performs a fetch and returns its result: it does not fail with a
missing-cache error, refuting "for every source". -/
theorem c4_counterexample :
    (codabench_load_or_fetch none false "scrape".data (.ok ("scrape".data, []))
        13955 "https://www.codabench.org".data "t".data).fetches = 1
    ∧ (codabench_load_or_fetch none false "scrape".data (.ok ("scrape".data, []))
        13955 "https://www.codabench.org".data "t".data).result
      ≠ .error .missingCache := by
  exact ⟨by decide, by decide⟩

/-- Witness for `c4_missing_cache`. -/
theorem c4_missing_cache_witness :
    (pyLower (pyStrip (if ("scrape".data : Str) = [] then "scrape".data else "scrape".data))
        = "scrape".data
      ∨ pyLower (pyStrip (if ("scrape".data : Str) = [] then "scrape".data else "scrape".data))
        = "csv".data
      ∨ pyLower (pyStrip (if ("scrape".data : Str) = [] then "scrape".data else "scrape".data))
        = "auto".data)
    ∧ (codalab_load_or_fetch_from_results_csv none false (.error "down".data)
          "codalab-old".data 24122 "https://competitions.codalab.org".data 40019 "t".data
        = { result := .error .missingCache }) :=
  ⟨Or.inl (by decide),
    (c4_missing_cache (.error "down".data) (.error "down".data) "scrape".data
      "codalab-old".data 24122 "https://competitions.codalab.org".data 40019 "t".data
      (Or.inl (by decide))).1⟩

/-- **C5 (amended).** For a cached snapshot that is itself a placeholder and a
load request with `refresh=False`: only `_codalab_load_or_fetch` attempts
exactly one fetch to upgrade it, returning the placeholder with a warning if
that fetch fails; `_codalab_load_or_fetch_from_results_csv` and
`_codabench_load_or_fetch` perform no fetch at all and return the cached
placeholder immediately with a warning. -/
theorem c5_placeholder_cache (c : Payload) (hc : is_placeholder_payload c = true)
    (fo : Except Str (List CanonicalRow)) (foB : Except Str (Str × List CanonicalRow))
    (method : Str) (e : Str) (sn : Str) (cid : Int) (burl : Str) (rid : Int) (now : Str) :
    ((codalab_load_or_fetch (some c) false fo sn cid burl now).fetches = 1)
    ∧ (fo = .error e →
        codalab_load_or_fetch (some c) false fo sn cid burl now
          = { result := .ok c, warnings := 1, fetches := 1 })
    ∧ (codalab_load_or_fetch_from_results_csv (some c) false fo sn cid burl rid now
        = { result := .ok c, warnings := 1 })
    ∧ (codabench_load_or_fetch (some c) false method foB cid burl now
        = { result := .ok c, warnings := 1 }) := by
  refine ⟨?_, ?_, ?_, ?_⟩
  · rcases fo with e' | rows <;>
      simp [codalab_load_or_fetch, codalab_do_fetch, hc]
  · rintro rfl
    simp [codalab_load_or_fetch, codalab_do_fetch, hc]
  · simp [codalab_load_or_fetch_from_results_csv, hc]
  · simp [codabench_load_or_fetch, hc]

/-- **C5 counterexample.** The CSV-based CodaLab loader, given a cached
placeholder and `refresh=False`, performs zero fetches (the claim requires
exactly one upgrade attempt for every source) and returns the placeholder. -/
theorem c5_counterexample :
    (codalab_load_or_fetch_from_results_csv (some placeholderPayload) false
        (.ok [{ team := "X".data }]) "codalab-new".data 420
        "https://codalab.lisn.upsaclay.fr".data 563 "t".data).fetches = 0
    ∧ (codalab_load_or_fetch_from_results_csv (some placeholderPayload) false
        (.ok [{ team := "X".data }]) "codalab-new".data 420
        "https://codalab.lisn.upsaclay.fr".data 563 "t".data).result
      = .ok placeholderPayload := by
  exact ⟨by decide, by decide⟩

/-- Witness for `c5_placeholder_cache`: concrete placeholder cache, failing
fetch. -/
theorem c5_placeholder_cache_witness :
    (is_placeholder_payload placeholderPayload = true)
    ∧ ((codalab_load_or_fetch (some placeholderPayload) false (.error "down".data)
          "codalab-new".data 420 "https://codalab.lisn.upsaclay.fr".data "t".data).fetches = 1)
    ∧ (codalab_load_or_fetch (some placeholderPayload) false (.error "down".data)
          "codalab-new".data 420 "https://codalab.lisn.upsaclay.fr".data "t".data
        = { result := .ok placeholderPayload, warnings := 1, fetches := 1 }) := by
  refine ⟨by decide, ?_, ?_⟩
  · exact (c5_placeholder_cache placeholderPayload (by decide) (.error "down".data)
      (.error "down".data) "scrape".data "down".data "codalab-new".data 420
      "https://codalab.lisn.upsaclay.fr".data 563 "t".data).1
  · exact (c5_placeholder_cache placeholderPayload (by decide) (.error "down".data)
      (.error "down".data) "scrape".data "down".data "codalab-new".data 420
      "https://codalab.lisn.upsaclay.fr".data 563 "t".data).2.1 rfl

/-! ### C6: date parsing and display -/

/-- **C6 counterexample.** `_parse_date_any("Sept. 05, 2021")` returns `None`:
the strict ISO attempt fails, and every `strptime` format fails too, because
`%b` matches only the three-letter abbreviation `"Sep"`, after which `"t"`
matches neither the whitespace of `"%b %d, %Y"` nor the dot of
`"%b. %d, %Y"`, and `%B` requires the full word `"September"`. -/
theorem c6_counterexample : parse_date_any "Sept. 05, 2021".data = none := by decide

/-- **C6 (amended).** `_parse_date_any("Sept. 05, 2021")` fails (returns
`None`), while `_format_date_display` does render September dates with the
special-case `"Sept."` abbreviation; the parse/display round-trip therefore
fails for September but holds for the other dotted abbreviations, e.g.
`"Oct. 05, 2021"`, and `"2021-10-05"` parses via the ISO path. -/
theorem c6_date_display :
    parse_date_any "2021-10-05".data = some { year := 2021, month := 10, day := 5 }
    ∧ format_date_display (parse_date_any "2021-10-05".data) = some "Oct. 05, 2021".data
    ∧ parse_date_any "Sept. 05, 2021".data = none
    ∧ format_date_display (some { year := 2021, month := 9, day := 5 })
        = some "Sept. 05, 2021".data
    ∧ parse_date_any "Oct. 05, 2021".data = some { year := 2021, month := 10, day := 5 }
    ∧ format_date_display (parse_date_any "Oct. 05, 2021".data)
        = some "Oct. 05, 2021".data := by
  refine ⟨by decide, by decide, by decide, by decide, by decide, by decide⟩

/-! ### C8: `_parse_float` -/

theorem isWs_eq_false_of_isDig {c : Char} (h : isDig c = true) : isWs c = false := by
  by_contra hw
  rw [Bool.not_eq_false] at hw
  simp only [isWs, Bool.or_eq_true, beq_iff_eq] at hw
  rcases hw with ((((rfl | rfl) | rfl) | rfl) | rfl) | rfl <;> exact absurd h (by decide)

theorem mem_dropWhile_subset {p : Char → Bool} {l : List Char} :
    l.dropWhile p ⊆ l :=
  (List.dropWhile_sublist p).subset

theorem mem_of_mem_pyStrip {c : Char} {s : Str} (h : c ∈ pyStrip s) : c ∈ s := by
  rw [pyStrip, List.mem_reverse] at h
  have h2 := mem_dropWhile_subset h
  rw [List.mem_reverse] at h2
  exact mem_dropWhile_subset h2

theorem mem_dropWhile_of_mem {p : Char → Bool} {c : Char} :
    ∀ {l : List Char}, c ∈ l → p c = false → c ∈ l.dropWhile p := by
  intro l
  induction l with
  | nil => intro h _; cases h
  | cons a t ih =>
    intro h hc
    rw [List.dropWhile_cons]
    rcases List.mem_cons.mp h with rfl | hmem
    · rw [hc]; simp
    · by_cases hpa : p a = true
      · rw [if_pos hpa]; exact ih hmem hc
      · rw [if_neg hpa]; exact List.mem_cons_of_mem a hmem

theorem mem_pyStrip_of_mem {c : Char} {s : Str} (h : c ∈ s) (hc : isWs c = false) :
    c ∈ pyStrip s := by
  rw [pyStrip, List.mem_reverse]
  refine mem_dropWhile_of_mem ?_ hc
  rw [List.mem_reverse]
  exact mem_dropWhile_of_mem h hc

theorem matchNumeralHere_eq_none {s : Str} (h : ∀ c ∈ s, isDig c = false) :
    matchNumeralHere s = none := by
  rcases s with _ | ⟨c, r⟩
  · rfl
  · rw [matchNumeralHere]
    by_cases h1 : c = '-'
    · subst h1
      simp only [if_pos rfl]
      rcases r with _ | ⟨d, r2⟩
      · simp
      · have hd : isDig d = false := h d (by simp)
        simp [hd]
    · by_cases h2 : c = '+'
      · subst h2
        simp only [if_neg h1, if_pos rfl]
        rcases r with _ | ⟨d, r2⟩
        · simp
        · have hd : isDig d = false := h d (by simp)
          simp [hd]
      · simp only [if_neg h1, if_neg h2]
        have hd : isDig c = false := h c (by simp)
        simp [hd]

theorem matchNumeralHere_isSome {c : Char} {r : Str} (h : isDig c = true) :
    (matchNumeralHere (c :: r)).isSome = true := by
  have h1 : ¬ c = '-' := by rintro rfl; exact absurd h (by decide)
  have h2 : ¬ c = '+' := by rintro rfl; exact absurd h (by decide)
  rw [matchNumeralHere]
  simp only [if_neg h1, if_neg h2, h, if_true]
  split <;> simp

theorem searchNumeral_eq_none {s : Str} (h : ∀ c ∈ s, isDig c = false) :
    searchNumeral s = none := by
  induction s with
  | nil => rfl
  | cons c r ih =>
    rw [searchNumeral, matchNumeralHere_eq_none h]
    exact ih fun x hx => h x (List.mem_cons_of_mem c hx)

theorem searchNumeral_isSome {s : Str} (h : ∃ c ∈ s, isDig c = true) :
    (searchNumeral s).isSome = true := by
  induction s with
  | nil => obtain ⟨c, hc, _⟩ := h; cases hc
  | cons c r ih =>
    rw [searchNumeral]
    rcases hm : matchNumeralHere (c :: r) with _ | v
    · obtain ⟨d, hd, hdig⟩ := h
      rcases List.mem_cons.mp hd with rfl | hmem
      · have hs := matchNumeralHere_isSome (r := r) hdig
        rw [hm] at hs
        exact absurd hs (by simp)
      · simpa using ih ⟨d, hmem, hdig⟩
    · simp

/-- **C8.** `_parse_float` is total (it returns an `Option`, never raises: the
guarded `float()` call only ever sees the matched numeral). It returns `None`
on whitespace-only input, on the sentinels `na`/`n/a`/`none`/`null`/`-`
(case-insensitively, after stripping), and on input containing no decimal
digit; whenever the input contains a digit and is not a sentinel it returns
the first signed decimal numeral (after comma removal) as an exact number; in
particular `parse_float("1,234.5") = 1234.5`, `parse_float("n/a") = None`,
`parse_float("") = None`. -/
theorem c8_parse_float (s : Str) :
    (pyStrip s = [] → parse_float s = none)
    ∧ ((pyLower (pyStrip s) = "na".data ∨ pyLower (pyStrip s) = "n/a".data
        ∨ pyLower (pyStrip s) = "none".data ∨ pyLower (pyStrip s) = "null".data
        ∨ pyLower (pyStrip s) = "-".data) → parse_float s = none)
    ∧ ((∀ c ∈ s, isDig c = false) → parse_float s = none)
    ∧ ((∃ c ∈ s, isDig c = true)
        → ¬(pyLower (pyStrip s) = "na".data ∨ pyLower (pyStrip s) = "n/a".data
            ∨ pyLower (pyStrip s) = "none".data ∨ pyLower (pyStrip s) = "null".data
            ∨ pyLower (pyStrip s) = "-".data)
        → (parse_float s).isSome = true)
    ∧ parse_float "1,234.5".data = some ⟨12345, 1⟩
    ∧ parse_float "n/a".data = none
    ∧ parse_float "".data = none := by
  refine ⟨?_, ?_, ?_, ?_, by decide, by decide, by decide⟩
  · intro h
    simp [parse_float, h]
  · intro h
    by_cases he : pyStrip s = []
    · simp [parse_float, he]
    · simp [parse_float, he, h]
  · intro h
    by_cases he : pyStrip s = []
    · simp [parse_float, he]
    · by_cases hs : pyLower (pyStrip s) = "na".data ∨ pyLower (pyStrip s) = "n/a".data
          ∨ pyLower (pyStrip s) = "none".data ∨ pyLower (pyStrip s) = "null".data
          ∨ pyLower (pyStrip s) = "-".data
      · simp [parse_float, he, hs]
      · simp only [parse_float, if_neg he, if_neg hs]
        refine searchNumeral_eq_none ?_
        intro c hc
        exact h c (mem_of_mem_pyStrip (List.mem_filter.mp hc).1)
  · rintro ⟨d, hd, hdig⟩ hsent
    have hdw : isWs d = false := isWs_eq_false_of_isDig hdig
    have hdstrip : d ∈ pyStrip s := mem_pyStrip_of_mem hd hdw
    have he : ¬ pyStrip s = [] := by
      intro h0
      rw [h0] at hdstrip
      cases hdstrip
    simp only [parse_float, if_neg he, if_neg hsent]
    refine searchNumeral_isSome ⟨d, ?_, hdig⟩
    rw [removeCommas, List.mem_filter]
    refine ⟨hdstrip, ?_⟩
    have : ¬ d = ',' := by rintro rfl; exact absurd hdig (by decide)
    simp [this]

/-- Witness for `c8_parse_float` at digit-free and digit-carrying inputs. -/
theorem c8_parse_float_witness :
    ((∀ c ∈ ("xyz".data : Str), isDig c = false) ∧ parse_float "xyz".data = none)
    ∧ ((∃ c ∈ ("a7b".data : Str), isDig c = true) ∧ (parse_float "a7b".data).isSome = true) :=
  ⟨⟨by decide, (c8_parse_float "xyz".data).2.2.1 (by decide)⟩,
   ⟨by decide, (c8_parse_float "a7b".data).2.2.2.1 (by decide) (by decide)⟩⟩

/-! ### C9: `_find_column` -/

theorem find?_filter_congr {α : Type} (p q₁ q₂ : α → Bool)
    (hq : ∀ x, q₁ x ≠ q₂ x → p x = false) :
    ∀ l : List α, (l.filter q₁).find? p = (l.filter q₂).find? p := by
  intro l
  induction l with
  | nil => rfl
  | cons a t ih =>
    rw [List.filter_cons, List.filter_cons]
    cases hq1 : q₁ a <;> cases hq2 : q₂ a
    · simpa using ih
    · have hpa : p a = false := hq a (by rw [hq1, hq2]; exact Bool.false_ne_true)
      simp only [Bool.false_eq_true, if_false, if_true]
      rw [List.find?_cons_of_neg _ (by rw [hpa]; exact Bool.false_ne_true)]
      exact ih
    · have hpa : p a = false := hq a (by rw [hq1, hq2]; exact (by decide : (true : Bool) ≠ false))
      simp only [Bool.false_eq_true, if_false, if_true]
      rw [List.find?_cons_of_neg _ (by rw [hpa]; exact Bool.false_ne_true)]
      exact ih
    · simp only [if_true]
      by_cases hpa : p a = true
      · rw [List.find?_cons_of_pos _ hpa, List.find?_cons_of_pos _ hpa]
      · rw [List.find?_cons_of_neg _ hpa, List.find?_cons_of_neg _ hpa]
        exact ih

theorem find?_dedupFirstAux (p : Str → Bool) :
    ∀ (l seen : List Str),
      (dedupFirstAux seen l).find? p = (l.filter (fun x => !seen.contains x)).find? p := by
  intro l
  induction l with
  | nil => intro seen; rfl
  | cons h t ih =>
    intro seen
    rw [dedupFirstAux, List.filter_cons]
    cases hc : seen.contains h
    · simp only [hc, Bool.false_eq_true, if_false, Bool.not_false, if_true]
      by_cases hph : p h = true
      · rw [List.find?_cons_of_pos _ hph, List.find?_cons_of_pos _ hph]
      · rw [List.find?_cons_of_neg _ hph, List.find?_cons_of_neg _ hph, ih]
        refine find?_filter_congr p _ _ ?_ t
        intro x hx
        by_cases hxh : x = h
        · subst hxh
          by_contra hpx
          rw [Bool.not_eq_false] at hpx
          exact hph hpx
        · exfalso
          apply hx
          simp [List.contains_cons, hxh]
    · simp only [hc, if_true, Bool.not_true, Bool.false_eq_true, if_false]
      exact ih seen

theorem find?_dedupFirst (p : Str → Bool) (l : List Str) :
    (dedupFirst l).find? p = l.find? p := by
  rw [dedupFirst, find?_dedupFirstAux]
  have h : (l.filter (fun x => !([] : List Str).contains x)) = l := by
    simp
  rw [h]

theorem find?_congr_normKey (f : Str → Bool) :
    ∀ (l l' : List Str), l.map norm_key = l'.map norm_key →
      (l.find? (fun h => f (norm_key h))).map norm_key
        = (l'.find? (fun h => f (norm_key h))).map norm_key := by
  intro l
  induction l with
  | nil =>
    intro l' h
    cases l' with
    | nil => rfl
    | cons b u => simp at h
  | cons a t ih =>
    intro l' h
    cases l' with
    | nil => simp at h
    | cons b u =>
      simp only [List.map_cons, List.cons.injEq] at h
      obtain ⟨hab, htu⟩ := h
      by_cases hfb : f (norm_key b) = true
      · rw [List.find?_cons_of_pos (p := fun h => f (norm_key h)) _ (by show f (norm_key a) = true; rw [hab]; exact hfb),
          List.find?_cons_of_pos (p := fun h => f (norm_key h)) _ hfb]
        simp [hab]
      · rw [List.find?_cons_of_neg (p := fun h => f (norm_key h)) _ (by show ¬ f (norm_key a) = true; rw [hab]; exact hfb),
          List.find?_cons_of_neg (p := fun h => f (norm_key h)) _ hfb]
        exact ih u htu

/-- **C9.** `_find_column` resolves case-insensitively with collapsed
whitespace (result determined, up to normalization, by the normalized header
list), runs the exact-match pass over all headers before any substring
matching, returns the first qualifying header in header order within the
deciding pass (the python dict over headers preserves first-occurrence order,
so deduplication is invisible), and returns `None` exactly when no header
qualifies in either pass. The concrete conjuncts show "AUC", " auc ", "Auc"
all resolving, and a later exact match beating an earlier substring match. -/
theorem c9_find_column (headers cands : List Str) :
    (find_column headers cands =
      (match headers.find? (fun h => exactMatch cands h) with
       | some h => some h
       | none => headers.find? (fun h => subMatch cands h)))
    ∧ ((find_column headers cands = none) ↔
        ∀ h ∈ headers, exactMatch cands h = false ∧ subMatch cands h = false)
    ∧ (∀ headers' : List Str, headers.map norm_key = headers'.map norm_key →
        (find_column headers cands).map norm_key
          = (find_column headers' cands).map norm_key)
    ∧ (find_column ["AUC".data, "MRR".data] ["auc".data] = some "AUC".data
       ∧ find_column [" auc ".data] ["auc".data] = some " auc ".data
       ∧ find_column ["Auc".data] ["auc".data] = some "Auc".data
       ∧ find_column ["AUC extra".data, "auc".data] ["auc".data] = some "auc".data) := by
  have hchar : ∀ hs cs, find_column hs cs =
      (match hs.find? (fun h => exactMatch cs h) with
       | some h => some h
       | none => hs.find? (fun h => subMatch cs h)) := by
    intro hs cs
    rw [find_column, find?_dedupFirst, find?_dedupFirst]
  refine ⟨hchar headers cands, ?_, ?_, by decide, by decide, by decide, by decide⟩
  · rw [hchar]
    rcases hfe : headers.find? (fun h => exactMatch cands h) with _ | h0
    · rw [List.find?_eq_none] at hfe
      simp only [List.find?_eq_none]
      constructor
      · intro hall h hh
        exact ⟨Bool.eq_false_iff.mpr (hfe h hh), Bool.eq_false_iff.mpr (hall h hh)⟩
      · intro hboth h hh
        rw [(hboth h hh).2]
        exact Bool.false_ne_true
    · refine iff_of_false (by simp) ?_
      intro hall
      have hmem := List.mem_of_find?_eq_some hfe
      have hp := List.find?_some hfe
      rw [(hall h0 hmem).1] at hp
      exact Bool.false_ne_true hp
  · intro headers' hmap
    have hexact : (headers.find? (fun h => exactMatch cands h)).map norm_key
        = (headers'.find? (fun h => exactMatch cands h)).map norm_key :=
      find?_congr_normKey (fun nk => (cands.map norm_key).contains nk) headers headers' hmap
    have hsub : (headers.find? (fun h => subMatch cands h)).map norm_key
        = (headers'.find? (fun h => subMatch cands h)).map norm_key :=
      find?_congr_normKey
        (fun nk => (cands.map norm_key).any (fun c => !c.isEmpty && hasSub c nk))
        headers headers' hmap
    rw [hchar headers cands, hchar headers' cands]
    rcases hfe : headers.find? (fun h => exactMatch cands h) with _ | h0 <;>
      rcases hfe' : headers'.find? (fun h => exactMatch cands h) with _ | h0' <;>
      rw [hfe, hfe'] at hexact
    · exact hsub
    · simp at hexact
    · simp at hexact
    · simpa using hexact

/-- Witness for `c9_find_column`: the normalization-invariance conjunct at
the header lists `["AUC"]` and `["Auc"]`. -/
theorem c9_find_column_witness :
    ((["AUC".data] : List Str).map norm_key = (["Auc".data] : List Str).map norm_key)
    ∧ (find_column ["AUC".data] ["auc".data]).map norm_key
        = (find_column ["Auc".data] ["auc".data]).map norm_key :=
  ⟨by decide,
    (c9_find_column ["AUC".data] ["auc".data]).2.2.1 ["Auc".data] (by decide)⟩

/-! ### C7: row normalization drops exactly the empty-team rows -/

theorem parseTableRows_eq (headers : List Str) :
    ∀ rows : List (List Str),
      parseTableRows headers rows
        = (rows.filter (fun row => !(rowTeamText headers row).isEmpty)).map
            (mkTableRow headers) := by
  intro rows
  induction rows with
  | nil => rfl
  | cons row rest ih =>
    rw [parseTableRows, List.filter_cons]
    by_cases h : rowTeamText headers row = []
    · simp [h, ih]
    · simp [h, List.isEmpty_iff, ih]

theorem parseGenericRows_eq (headers : List Str) :
    ∀ rows : List (List (Str × Option Str)),
      parseGenericRows headers rows
        = (rows.filter (fun r => !(genTeamText headers r).isEmpty)).map
            (genericRow headers) := by
  intro rows
  induction rows with
  | nil => rfl
  | cons r rest ih =>
    rw [parseGenericRows, List.filter_cons]
    by_cases h : genTeamText headers r = []
    · simp [h, ih]
    · simp [h, List.isEmpty_iff, ih]

/-- **C7.** Both row normalizers keep exactly the raw rows whose resolved team
text is non-empty after stripping, in input order (a filter-and-map of the raw
rows), so every produced row has a non-empty team: `_codabench_parse_table` on
a 2-D grid, and `_parse_generic_leaderboard_rows` on CSV dict rows (whose
header list is the first row's key sequence). In particular the raw grid row
`["  ", "0.9"]` under headers `["team", "auc"]` and the dict row
`{team: "  ", auc: "0.9"}` each contribute zero output rows. -/
theorem c7_row_normalization (headers : List Str) (rows_2d : List (List Str))
    (dict_rows : List (List (Str × Option Str))) :
    (codabench_parse_table headers rows_2d
        = (rows_2d.filter (fun row => !(rowTeamText headers row).isEmpty)).map
            (mkTableRow headers))
    ∧ (∀ r ∈ codabench_parse_table headers rows_2d, r.team ≠ [])
    ∧ (parse_generic_leaderboard_rows dict_rows
        = (dict_rows.filter (fun r =>
            !(genTeamText (genHeaders dict_rows) r).isEmpty)).map
            (genericRow (genHeaders dict_rows)))
    ∧ (∀ r ∈ parse_generic_leaderboard_rows dict_rows, r.team ≠ [])
    ∧ codabench_parse_table ["team".data, "auc".data] [["  ".data, "0.9".data]] = []
    ∧ parse_generic_leaderboard_rows
        [[("team".data, some "  ".data), ("auc".data, some "0.9".data)]] = [] := by
  have hmain : codabench_parse_table headers rows_2d
      = (rows_2d.filter (fun row => !(rowTeamText headers row).isEmpty)).map
          (mkTableRow headers) := by
    rw [codabench_parse_table]
    by_cases hg : headers = [] ∨ rows_2d = []
    · rw [if_pos hg]
      rcases hg with hg | hg
      · subst hg
        have hempty : ∀ row : List Str, rowTeamText [] row = [] := fun _ => rfl
        have hfil : (rows_2d.filter (fun row => !(rowTeamText [] row).isEmpty)) = [] := by
          simp [hempty]
        rw [hfil]
        rfl
      · subst hg
        rfl
    · rw [if_neg hg]
      exact parseTableRows_eq headers rows_2d
  have hgen : parse_generic_leaderboard_rows dict_rows
      = (dict_rows.filter (fun r =>
          !(genTeamText (genHeaders dict_rows) r).isEmpty)).map
          (genericRow (genHeaders dict_rows)) := by
    cases dict_rows with
    | nil => rfl
    | cons r0 rest =>
      show parseGenericRows (dedupFirst (r0.map Prod.fst)) (r0 :: rest) = _
      rw [parseGenericRows_eq]
      rfl
  refine ⟨hmain, ?_, hgen, ?_, by decide, by decide⟩
  · intro r hr
    rw [hmain] at hr
    obtain ⟨row, hrow, rfl⟩ := List.mem_map.mp hr
    have hpred := (List.mem_filter.mp hrow).2
    intro hteam
    have hteam2 : rowTeamText headers row = [] := by
      simpa [mkTableRow] using hteam
    rw [hteam2] at hpred
    simp at hpred
  · intro r hr
    rw [hgen] at hr
    obtain ⟨row, hrow, rfl⟩ := List.mem_map.mp hr
    have hpred := (List.mem_filter.mp hrow).2
    intro hteam
    have hteam2 : genTeamText (genHeaders dict_rows) row = [] := by
      simpa [genericRow] using hteam
    rw [hteam2] at hpred
    simp at hpred

/-- Witness for `c7_row_normalization`: the two non-empty-team conjuncts at
concrete tables, one per normalizer. -/
theorem c7_row_normalization_witness :
    ({ team := "X".data, auc := some ⟨9, 1⟩ }
        ∈ codabench_parse_table ["team".data, "auc".data] [["X".data, "0.9".data]])
    ∧ ({ team := "X".data, auc := some ⟨9, 1⟩ } : CanonicalRow).team ≠ []
    ∧ ({ team := "X".data, auc := some ⟨9, 1⟩ }
        ∈ parse_generic_leaderboard_rows
            [[("team".data, some "X".data), ("auc".data, some "0.9".data)]]) :=
  ⟨by decide,
    (c7_row_normalization ["team".data, "auc".data] [["X".data, "0.9".data]] []).2.1
      { team := "X".data, auc := some ⟨9, 1⟩ } (by decide),
    by decide⟩

/-! ### C10 toolkit: prefixes, infixes, search specifications -/

theorem hasPre_iff : ∀ p s : Str, hasPre p s = true ↔ p <+: s := by
  intro p
  induction p with
  | nil => intro s; simp [hasPre, List.nil_prefix]
  | cons a q ih =>
    intro s
    cases s with
    | nil =>
      simp only [hasPre]
      exact iff_of_false (by simp) (by intro h; exact absurd h.length_le (by simp))
    | cons b t =>
      rw [hasPre]
      simp only [Bool.and_eq_true, beq_iff_eq, ih]
      constructor
      · rintro ⟨rfl, h⟩
        rcases h with ⟨r, hr⟩
        exact ⟨r, by rw [List.cons_append, hr]⟩
      · intro h
        rcases h with ⟨r, hr⟩
        injection hr with h1 h2
        exact ⟨h1, ⟨r, h2⟩⟩

theorem hasSub_iff (p : Str) : ∀ s : Str, hasSub p s = true ↔ p <:+: s := by
  intro s
  induction s with
  | nil => simp [hasSub, List.isEmpty_iff, List.infix_nil]
  | cons c rest ih =>
    rw [hasSub]
    simp only [Bool.or_eq_true, hasPre_iff, ih, List.infix_cons_iff]

theorem prefix_take_of_le {p l : Str} {n : Nat} (h : p <+: l) (hn : p.length ≤ n) :
    p <+: l.take n := by
  rw [List.prefix_iff_eq_take] at h ⊢
  rw [List.take_take, min_eq_left hn]
  exact h

theorem prefix_append_of_le {p X Y : Str} (h : p <+: X ++ Y) (hl : p.length ≤ X.length) :
    p <+: X := by
  rw [List.prefix_iff_eq_take] at h
  rw [List.take_append_eq_append_take, Nat.sub_eq_zero_of_le hl, List.take_zero,
    List.append_nil] at h
  rw [h]
  exact List.take_prefix _ _

theorem prefix_append_long {p X Y : Str} (h : p <+: X ++ Y) (hl : X.length ≤ p.length) :
    p.take X.length = X ∧ p.drop X.length <+: Y := by
  rcases h with ⟨r, hr⟩
  have htake : X = p.take X.length ++ r.take (X.length - p.length) := by
    rw [← List.take_append_eq_append_take, hr, List.take_left]
  rw [Nat.sub_eq_zero_of_le hl, List.take_zero, List.append_nil] at htake
  have hdrop : Y = p.drop X.length ++ r := by
    have := List.drop_left X Y
    rw [← hr, List.drop_append_eq_append_drop, Nat.sub_eq_zero_of_le hl,
      List.drop_zero] at this
    exact this.symm
  exact ⟨htake.symm, ⟨r, hdrop.symm⟩⟩

theorem infix_append_decomp {p : Str} : ∀ {X Y : Str}, p <:+: X ++ Y →
    p <:+: X ∨ p <:+: Y ∨
      ∃ k, 0 < k ∧ k < p.length ∧ p.take k <:+ X ∧ p.drop k <+: Y := by
  intro X
  induction X with
  | nil => intro Y h; exact Or.inr (Or.inl h)
  | cons a X' ih =>
    intro Y h
    rw [List.cons_append, List.infix_cons_iff] at h
    rcases h with h | h
    · rcases le_or_lt p.length (a :: X').length with hle | hlt
      · exact Or.inl ((prefix_append_of_le (by simpa using h) hle).isInfix)
      · have hl := prefix_append_long (by simpa using h) (Nat.le_of_lt hlt)
        refine Or.inr (Or.inr ⟨(a :: X').length, by simp, hlt, ?_, hl.2⟩)
        rw [hl.1]
      
    · rcases ih h with h1 | h1 | ⟨k, hk1, hk2, hk3, hk4⟩
      · exact Or.inl (List.infix_cons h1)
      · exact Or.inr (Or.inl h1)
      · refine Or.inr (Or.inr ⟨k, hk1, hk2, ?_, hk4⟩)
        rcases hk3 with ⟨t, ht⟩
        exact ⟨a :: t, by rw [List.cons_append, ht]⟩

theorem noInfix_append {p X Y : Str} (hX : ¬ p <:+: X) (hY : ¬ p <:+: Y)
    (hb : ∀ k, 0 < k → k < p.length → ¬ (p.take k <:+ X ∧ p.drop k <+: Y)) :
    ¬ p <:+: X ++ Y := by
  intro h
  rcases infix_append_decomp h with h1 | h1 | ⟨k, hk1, hk2, hk3, hk4⟩
  · exact hX h1
  · exact hY h1
  · exact hb k hk1 hk2 ⟨hk3, hk4⟩

theorem suffix_getLast? {p X : Str} (h : p <:+ X) (hp : p ≠ []) :
    X.getLast? = p.getLast? := by
  rcases h with ⟨t, ht⟩
  rw [← ht, List.getLast?_append]
  rcases hx : p.getLast? with _ | x
  · exact absurd (List.getLast?_eq_none_iff.mp hx) hp
  · rfl

theorem noInfix_of_missing {p s : Str} {c : Char} (hc : c ∈ p) (hs : ∀ x ∈ s, x ≠ c) :
    ¬ p <:+: s := fun h => hs c (h.subset hc) rfl

theorem getLast?_mem_of_eq : ∀ {l : Str} {a : Char}, l.getLast? = some a → a ∈ l := by
  intro l
  induction l with
  | nil => intro a h; simp at h
  | cons x rest ih =>
    intro a h
    cases rest with
    | nil =>
      simp only [List.getLast?_singleton, Option.some.injEq] at h
      simp [h]
    | cons y t =>
      rw [List.getLast?_cons_cons] at h
      exact List.mem_cons_of_mem x (ih h)

theorem drop_ne_nil_of_lt {l : Str} {k : Nat} (h : k < l.length) : l.drop k ≠ [] := by
  intro hnil
  have := List.length_drop k l
  rw [hnil] at this
  simp at this
  omega

theorem findSubAux_some_iff (pat : Str) : ∀ (s : Str) (i m : Nat),
    findSubAux pat s i = some m ↔
      i ≤ m ∧ hasPre pat (s.drop (m - i)) = true ∧
        ∀ j, j < m - i → hasPre pat (s.drop j) = false := by
  intro s
  induction s with
  | nil =>
    intro i m
    rw [findSubAux]
    by_cases hp : pat = []
    · subst hp
      rw [if_pos rfl]
      constructor
      · intro h
        injection h with h
        subst h
        exact ⟨le_refl i, rfl, fun j hj => absurd hj (by omega)⟩
      · rintro ⟨h1, _, h3⟩
        by_contra hne
        have hne' : i ≠ m := fun he => hne (by rw [he])
        have := h3 0 (by omega)
        exact absurd this (by simp [hasPre])
    · rw [if_neg hp]
      refine iff_of_false (by simp) ?_
      rintro ⟨_, h2, _⟩
      rw [List.drop_nil] at h2
      cases pat with
      | nil => exact hp rfl
      | cons a q => simp [hasPre] at h2
  | cons c rest ih =>
    intro i m
    rw [findSubAux]
    by_cases hp : hasPre pat (c :: rest) = true
    · rw [if_pos hp]
      simp only [Option.some.injEq]
      constructor
      · rintro rfl
        exact ⟨le_refl i, by simpa using hp, fun j hj => absurd hj (by omega)⟩
      · rintro ⟨h1, h2, h3⟩
        by_contra hne
        have h0 : 0 < m - i := by omega
        have := h3 0 h0
        rw [List.drop_zero] at this
        rw [this] at hp
        exact absurd hp (by simp)
    · rw [if_neg hp]
      rw [ih (i + 1) m]
      constructor
      · rintro ⟨h1, h2, h3⟩
        refine ⟨by omega, ?_, ?_⟩
        · have : m - i = (m - (i + 1)) + 1 := by omega
          rw [this, List.drop_succ_cons]
          exact h2
        · intro j hj
          cases j with
          | zero =>
            rw [List.drop_zero]
            exact Bool.eq_false_iff.mpr hp
          | succ j' =>
            rw [List.drop_succ_cons]
            exact h3 j' (by omega)
      · rintro ⟨h1, h2, h3⟩
        have hmi : i < m := by
          rcases Nat.lt_or_ge i m with h | h
          · exact h
          · have : m - i = 0 := by omega
            rw [this, List.drop_zero] at h2
            exact absurd h2 hp
        refine ⟨by omega, ?_, ?_⟩
        · have : m - i = (m - (i + 1)) + 1 := by omega
          rw [this, List.drop_succ_cons] at h2
          exact h2
        · intro j hj
          have := h3 (j + 1) (by omega)
          rw [List.drop_succ_cons] at this
          exact this

theorem findSub_some_iff (s pat : Str) (start m : Nat) :
    findSub s pat start = some m ↔
      start ≤ m ∧ hasPre pat (s.drop m) = true ∧
        ∀ i, start ≤ i → i < m → hasPre pat (s.drop i) = false := by
  rw [findSub, findSubAux_some_iff]
  constructor
  · rintro ⟨h1, h2, h3⟩
    refine ⟨h1, ?_, ?_⟩
    · rw [List.drop_drop] at h2
      have he : start + (m - start) = m := by omega
      rwa [he] at h2
    · intro i hi1 hi2
      have := h3 (i - start) (by omega)
      rw [List.drop_drop] at this
      have he : start + (i - start) = i := by omega
      rwa [he] at this
  · rintro ⟨h1, h2, h3⟩
    refine ⟨h1, ?_, ?_⟩
    · rw [List.drop_drop]
      have he : start + (m - start) = m := by omega
      rwa [he]
    · intro j hj
      rw [List.drop_drop]
      exact h3 (start + j) (by omega) (by omega)

theorem rfindChar_none_iff (c : Char) : ∀ l : Str, rfindChar c l = none ↔ c ∉ l := by
  intro l
  induction l with
  | nil => simp [rfindChar]
  | cons x rest ih =>
    rcases h : rfindChar c rest with _ | j
    · rw [rfindChar, h]
      show (if x = c then some 0 else none) = none ↔ c ∉ x :: rest
      by_cases hx : x = c
      · subst hx
        simp
      · simp only [if_neg hx, true_iff, List.mem_cons, not_or]
        exact ⟨fun he => hx he.symm, ih.mp h⟩
    · rw [rfindChar, h]
      show some (j + 1) = none ↔ c ∉ x :: rest
      refine iff_of_false (by simp) ?_
      intro hmem
      have hc : c ∈ rest := by
        by_contra hcc
        have h2 := ih.mpr hcc
        rw [h2] at h
        exact Option.noConfusion h
      exact hmem (List.mem_cons_of_mem x hc)

theorem rfindChar_append_some {c : Char} {Y : Str} {j : Nat}
    (h : rfindChar c Y = some j) : ∀ X : Str, rfindChar c (X ++ Y) = some (X.length + j) := by
  intro X
  induction X with
  | nil => simpa using h
  | cons x X' ih =>
    rw [List.cons_append, rfindChar, ih]
    simp only [List.length_cons]
    congr 1
    omega

theorem rfindChar_append_none {c : Char} {Y : Str}
    (h : rfindChar c Y = none) : ∀ X : Str, rfindChar c (X ++ Y) = rfindChar c X := by
  intro X
  induction X with
  | nil => simpa using h
  | cons x X' ih =>
    rw [List.cons_append, rfindChar, ih, rfindChar]

theorem rfindChar_decomp {c : Char} : ∀ {l : Str} {j : Nat}, rfindChar c l = some j →
    ∃ u v, l = u ++ c :: v ∧ u.length = j ∧ c ∉ v := by
  intro l
  induction l with
  | nil => intro j h; simp [rfindChar] at h
  | cons x rest ih =>
    intro j h
    rw [rfindChar] at h
    rcases hr : rfindChar c rest with _ | j'
    · rw [hr] at h
      by_cases hx : x = c
      · rw [if_pos hx] at h
        injection h with h
        subst hx
        exact ⟨[], rest, rfl, h, (rfindChar_none_iff x rest).mp hr⟩
      · rw [if_neg hx] at h
        exact absurd h (by simp)
    · rw [hr] at h
      injection h with h
      rcases ih hr with ⟨u, v, h1, h2, h3⟩
      exact ⟨x :: u, v, by rw [h1, List.cons_append], by simp [h2, ← h], h3⟩

theorem noInfix_of_hasSub {p s : Str} (h : hasSub p s = false) : ¬ p <:+: s := by
  intro hi
  rw [(hasSub_iff p s).mpr hi] at h
  exact Bool.noConfusion h

theorem take_ne_nil_of {p : Str} {k : Nat} (hk : 0 < k) (hp : p ≠ []) : p.take k ≠ [] := by
  intro h
  have h1 : p.length ≠ 0 := fun h0 => hp (List.length_eq_zero.mp h0)
  have := congrArg List.length h
  simp only [List.length_take, List.length_nil] at this
  omega

theorem straddle_last {p X : Str} {c : Char} (hp : p ≠ []) (hX : X.getLast? = some c)
    (hc : c ∉ p) (k : Nat) (hk : 0 < k) : ¬ p.take k <:+ X := by
  intro hsuf
  have h1 := suffix_getLast? hsuf (take_ne_nil_of hk hp)
  rw [hX] at h1
  have h2 := getLast?_mem_of_eq h1.symm
  exact hc (((List.take_prefix k p).isInfix).subset h2)

theorem noPre_cons_of_head {a b : Char} {p rest : Str} (hab : p.head? = some b)
    (hne : b ≠ a) : ¬ p <+: a :: rest := by
  rintro ⟨t, ht⟩
  cases p with
  | nil => simp at hab
  | cons x q =>
    rw [List.cons_append] at ht
    injection ht with h1 _
    injection hab with hb
    exact hne (hb ▸ h1)

theorem prefix_drop_take_iff {p w : Str} {i n : Nat} (hlen : i + p.length ≤ n) :
    p <+: (w.take n).drop i ↔ p <+: w.drop i := by
  rw [List.drop_take]
  constructor
  · intro h
    exact h.trans (List.take_prefix _ _)
  · intro h
    exact prefix_take_of_le h (by omega)

theorem prefix_append_iff_left {p X Y : Str} (hlen : p.length ≤ X.length) :
    p <+: X ++ Y ↔ p <+: X :=
  ⟨fun h => prefix_append_of_le h hlen, fun h => h.trans (List.prefix_append X Y)⟩

theorem noInfix_charSet (cs : Char → Bool) {s p : Str} (hs : ∀ x ∈ s, cs x = true)
    (c : Char) (hc : c ∈ p) (hcc : cs c = false) : ¬ p <:+: s := by
  intro h
  have h1 := hs c (h.subset hc)
  rw [h1] at hcc
  exact Bool.noConfusion hcc

theorem isDig_ofNat_48 (k : Nat) (hk : k < 10) : isDig (Char.ofNat (48 + k)) = true := by
  interval_cases k <;> decide

theorem natDecAux_digits : ∀ (f n : Nat), ∀ c ∈ natDecAux f n, isDig c = true := by
  intro f
  induction f with
  | zero => intro n c hc; simp [natDecAux] at hc
  | succ f ih =>
    intro n c hc
    rw [natDecAux] at hc
    by_cases hn : n < 10
    · rw [if_pos hn] at hc
      rcases List.mem_singleton.mp hc with rfl
      exact isDig_ofNat_48 n hn
    · rw [if_neg hn] at hc
      rcases List.mem_append.mp hc with h | h
      · exact ih (n / 10) c h
      · rcases List.mem_singleton.mp h with rfl
        exact isDig_ofNat_48 (n % 10) (Nat.mod_lt n (by norm_num))

theorem natDecStr_digits (n : Nat) : ∀ c ∈ natDecStr n, isDig c = true :=
  natDecAux_digits (n + 1) n

theorem padZ_digits (w n : Nat) : ∀ c ∈ padZ w n, isDig c = true := by
  intro c hc
  rcases List.mem_append.mp hc with h | h
  · rcases List.eq_of_mem_replicate h with rfl
    decide
  · exact natDecStr_digits n c h

theorem digitsDot_charSet (a : Nat) :
    ∀ c ∈ natDecStr (a / 10000) ++ '.' :: padZ 4 (a % 10000),
      (isDig c || c = '.' || c = '-') = true := by
  intro c hc
  rcases List.mem_append.mp hc with h | h
  · rw [natDecStr_digits _ c h]
    rfl
  · rcases List.mem_cons.mp h with rfl | h
    · decide
    · rw [padZ_digits 4 _ c h]
      rfl

theorem fmt4dp_charSet (v : DecVal) :
    ∀ c ∈ fmt4dp v, (isDig c || c = '.' || c = '-') = true := by
  intro c hc
  simp only [fmt4dp] at hc
  generalize (if v.pow ≤ 4 then v.num * pow10 (4 - v.pow)
    else rhe v.num (pow10 (v.pow - 4))) = sc at hc
  by_cases hneg : sc < 0 ∨ (sc = 0 ∧ v.num < 0)
  · rw [if_pos hneg] at hc
    rcases List.mem_cons.mp hc with rfl | h
    · decide
    · exact digitsDot_charSet sc.natAbs c h
  · rw [if_neg hneg] at hc
    exact digitsDot_charSet sc.natAbs c hc

theorem fmt_metric_charSet (m : Option DecVal) :
    ∀ c ∈ fmt_metric m, (isDig c || c = '.' || c = '-') = true := by
  intro c hc
  cases m with
  | none => simp [fmt_metric] at hc
  | some v => exact fmt4dp_charSet v c hc

theorem noInfix_pre_var (p pre v : Str)
    (hpre : ¬ p <:+: pre) (hv : ¬ p <:+: v)
    (hk : ∀ k, k < p.length → 0 < k → (p.take k).getLast? ≠ pre.getLast?) :
    ¬ p <:+: pre ++ v := by
  refine noInfix_append hpre hv ?_
  rintro k hk1 hk2 ⟨hsuf, -⟩
  have hne : p.take k ≠ [] := take_ne_nil_of hk1 (by
    intro h
    rw [h, List.length_nil] at hk2
    exact absurd hk2 (by omega))
  have h1 := suffix_getLast? hsuf hne
  exact hk k hk2 hk1 h1.symm

theorem noInfix_var_post (p v post : Str)
    (hv : ¬ p <:+: v) (hpost : ¬ p <:+: post)
    (hk : ∀ k, k < p.length → 0 < k → hasPre (p.drop k) post = false) :
    ¬ p <:+: v ++ post := by
  refine noInfix_append hv hpost ?_
  rintro k hk1 hk2 ⟨-, hpre2⟩
  have h1 := (hasPre_iff (p.drop k) post).mpr hpre2
  rw [hk k hk2 hk1] at h1
  exact Bool.noConfusion h1

theorem noInfix_pre_var_post (p pre v post : Str)
    (hpre : ¬ p <:+: pre) (hv : ¬ p <:+: v) (hpost : ¬ p <:+: post)
    (hk1 : ∀ k, k < p.length → 0 < k → (p.take k).getLast? ≠ pre.getLast?)
    (hk2 : ∀ k, k < p.length → 0 < k → hasPre (p.drop k) post = false) :
    ¬ p <:+: pre ++ (v ++ post) :=
  noInfix_pre_var p pre (v ++ post) hpre (noInfix_var_post p v post hv hpost hk2) hk1

theorem cellCleanB_close {s : Str} (h : cellCleanB s = true) :
    hasSub closeTableStr s = false := by
  rw [cellCleanB, Bool.and_eq_true] at h
  simp only [Bool.not_eq_true'] at h
  exact h.1

theorem cellCleanB_lbjs {s : Str} (h : cellCleanB s = true) :
    hasSub lbjsStr s = false := by
  rw [cellCleanB, Bool.and_eq_true] at h
  simp only [Bool.not_eq_true'] at h
  exact h.2

theorem rowLines_clean_close (i : Nat) (r : RankedRow)
    (hd : hasSub closeTableStr (dateTextOf r) = false)
    (ht : hasSub closeTableStr r.stamped.row.team = false) :
    ∀ l ∈ renderRowLines i r, ¬ closeTableStr <:+: l := by
  intro l hl
  simp only [renderRowLines, List.mem_cons, List.not_mem_nil, or_false] at hl
  rcases hl with rfl | rfl | rfl | rfl | rfl | rfl | rfl | rfl | rfl | rfl | rfl | rfl |
    rfl | rfl | rfl | rfl | rfl | rfl | rfl | rfl | rfl | rfl
  · by_cases hi : i % 2 = 1
    · rw [if_pos hi]
      exact noInfix_of_hasSub (by decide)
    · rw [if_neg hi]
      exact noInfix_of_hasSub (by decide)
  · exact noInfix_of_hasSub (by decide)
  · exact noInfix_of_hasSub (by decide)
  · exact noInfix_pre_var _ _ _ (noInfix_of_hasSub (by decide))
      (noInfix_charSet isDig (natDecStr_digits _) '<' (by decide) (by decide)) (by decide)
  · rw [List.append_assoc]
    exact noInfix_pre_var_post _ _ _ _ (noInfix_of_hasSub (by decide))
      (noInfix_of_hasSub hd) (noInfix_of_hasSub (by decide)) (by decide) (by decide)
  · exact noInfix_of_hasSub (by decide)
  · exact noInfix_of_hasSub (by decide)
  · exact noInfix_pre_var _ _ _ (noInfix_of_hasSub (by decide))
      (noInfix_of_hasSub ht) (by decide)
  · exact noInfix_of_hasSub (by decide)
  · exact noInfix_of_hasSub (by decide)
  · rw [List.append_assoc]
    exact noInfix_pre_var_post _ _ _ _ (noInfix_of_hasSub (by decide))
      (noInfix_charSet (fun c => isDig c || c = '.' || c = '-') (fmt_metric_charSet _)
        '<' (by decide) (by decide))
      (noInfix_of_hasSub (by decide)) (by decide) (by decide)
  · exact noInfix_of_hasSub (by decide)
  · exact noInfix_of_hasSub (by decide)
  · rw [List.append_assoc]
    exact noInfix_pre_var_post _ _ _ _ (noInfix_of_hasSub (by decide))
      (noInfix_charSet (fun c => isDig c || c = '.' || c = '-') (fmt_metric_charSet _)
        '<' (by decide) (by decide))
      (noInfix_of_hasSub (by decide)) (by decide) (by decide)
  · exact noInfix_of_hasSub (by decide)
  · exact noInfix_of_hasSub (by decide)
  · rw [List.append_assoc]
    exact noInfix_pre_var_post _ _ _ _ (noInfix_of_hasSub (by decide))
      (noInfix_charSet (fun c => isDig c || c = '.' || c = '-') (fmt_metric_charSet _)
        '<' (by decide) (by decide))
      (noInfix_of_hasSub (by decide)) (by decide) (by decide)
  · exact noInfix_of_hasSub (by decide)
  · exact noInfix_of_hasSub (by decide)
  · rw [List.append_assoc]
    exact noInfix_pre_var_post _ _ _ _ (noInfix_of_hasSub (by decide))
      (noInfix_charSet (fun c => isDig c || c = '.' || c = '-') (fmt_metric_charSet _)
        '<' (by decide) (by decide))
      (noInfix_of_hasSub (by decide)) (by decide) (by decide)
  · exact noInfix_of_hasSub (by decide)
  · exact noInfix_of_hasSub (by decide)

theorem rowLines_clean_lbjs (i : Nat) (r : RankedRow)
    (hd : hasSub lbjsStr (dateTextOf r) = false)
    (ht : hasSub lbjsStr r.stamped.row.team = false) :
    ∀ l ∈ renderRowLines i r, ¬ lbjsStr <:+: l := by
  intro l hl
  simp only [renderRowLines, List.mem_cons, List.not_mem_nil, or_false] at hl
  rcases hl with rfl | rfl | rfl | rfl | rfl | rfl | rfl | rfl | rfl | rfl | rfl | rfl |
    rfl | rfl | rfl | rfl | rfl | rfl | rfl | rfl | rfl | rfl
  · by_cases hi : i % 2 = 1
    · rw [if_pos hi]
      exact noInfix_of_hasSub (by decide)
    · rw [if_neg hi]
      exact noInfix_of_hasSub (by decide)
  · exact noInfix_of_hasSub (by decide)
  · exact noInfix_of_hasSub (by decide)
  · exact noInfix_pre_var _ _ _ (noInfix_of_hasSub (by decide))
      (noInfix_charSet isDig (natDecStr_digits _) 'l' (by decide) (by decide)) (by decide)
  · rw [List.append_assoc]
    exact noInfix_pre_var_post _ _ _ _ (noInfix_of_hasSub (by decide))
      (noInfix_of_hasSub hd) (noInfix_of_hasSub (by decide)) (by decide) (by decide)
  · exact noInfix_of_hasSub (by decide)
  · exact noInfix_of_hasSub (by decide)
  · exact noInfix_pre_var _ _ _ (noInfix_of_hasSub (by decide))
      (noInfix_of_hasSub ht) (by decide)
  · exact noInfix_of_hasSub (by decide)
  · exact noInfix_of_hasSub (by decide)
  · rw [List.append_assoc]
    exact noInfix_pre_var_post _ _ _ _ (noInfix_of_hasSub (by decide))
      (noInfix_charSet (fun c => isDig c || c = '.' || c = '-') (fmt_metric_charSet _)
        'l' (by decide) (by decide))
      (noInfix_of_hasSub (by decide)) (by decide) (by decide)
  · exact noInfix_of_hasSub (by decide)
  · exact noInfix_of_hasSub (by decide)
  · rw [List.append_assoc]
    exact noInfix_pre_var_post _ _ _ _ (noInfix_of_hasSub (by decide))
      (noInfix_charSet (fun c => isDig c || c = '.' || c = '-') (fmt_metric_charSet _)
        'l' (by decide) (by decide))
      (noInfix_of_hasSub (by decide)) (by decide) (by decide)
  · exact noInfix_of_hasSub (by decide)
  · exact noInfix_of_hasSub (by decide)
  · rw [List.append_assoc]
    exact noInfix_pre_var_post _ _ _ _ (noInfix_of_hasSub (by decide))
      (noInfix_charSet (fun c => isDig c || c = '.' || c = '-') (fmt_metric_charSet _)
        'l' (by decide) (by decide))
      (noInfix_of_hasSub (by decide)) (by decide) (by decide)
  · exact noInfix_of_hasSub (by decide)
  · exact noInfix_of_hasSub (by decide)
  · rw [List.append_assoc]
    exact noInfix_pre_var_post _ _ _ _ (noInfix_of_hasSub (by decide))
      (noInfix_charSet (fun c => isDig c || c = '.' || c = '-') (fmt_metric_charSet _)
        'l' (by decide) (by decide))
      (noInfix_of_hasSub (by decide)) (by decide) (by decide)
  · exact noInfix_of_hasSub (by decide)
  · exact noInfix_of_hasSub (by decide)

theorem renderAll_clean_close : ∀ (rows : List RankedRow) (i : Nat),
    (∀ r ∈ rows, cellCleanB (dateTextOf r) = true ∧ cellCleanB r.stamped.row.team = true) →
    ∀ l ∈ renderAllLines i rows, ¬ closeTableStr <:+: l := by
  intro rows
  induction rows with
  | nil => intro i _ l hl; simp [renderAllLines] at hl
  | cons r rest ih =>
    intro i hcl l hl
    rw [renderAllLines] at hl
    rcases List.mem_append.mp hl with h | h
    · exact rowLines_clean_close i r (cellCleanB_close (hcl r (List.mem_cons_self r rest)).1)
        (cellCleanB_close (hcl r (List.mem_cons_self r rest)).2) l h
    · exact ih (i + 1) (fun x hx => hcl x (List.mem_cons_of_mem r hx)) l h

theorem renderAll_clean_lbjs : ∀ (rows : List RankedRow) (i : Nat),
    (∀ r ∈ rows, cellCleanB (dateTextOf r) = true ∧ cellCleanB r.stamped.row.team = true) →
    ∀ l ∈ renderAllLines i rows, ¬ lbjsStr <:+: l := by
  intro rows
  induction rows with
  | nil => intro i _ l hl; simp [renderAllLines] at hl
  | cons r rest ih =>
    intro i hcl l hl
    rw [renderAllLines] at hl
    rcases List.mem_append.mp hl with h | h
    · exact rowLines_clean_lbjs i r (cellCleanB_lbjs (hcl r (List.mem_cons_self r rest)).1)
        (cellCleanB_lbjs (hcl r (List.mem_cons_self r rest)).2) l h
    · exact ih (i + 1) (fun x hx => hcl x (List.mem_cons_of_mem r hx)) l h

theorem joinNl_append_nl : ∀ lines : List Str, lines ≠ [] →
    joinNl lines ++ ['\n'] = (lines.map (fun l => l ++ ['\n'])).flatten := by
  intro lines
  induction lines with
  | nil => intro h; exact absurd rfl h
  | cons l rest ih =>
    intro _
    cases rest with
    | nil => simp [joinNl]
    | cons l2 rest2 =>
      rw [joinNl, List.map_cons, List.flatten_cons, ← ih (by simp)]
      simp [List.append_assoc]

theorem noInfix_chunk_nl {p c : Str} (hp : p ≠ []) (hnl : ('\n' : Char) ∉ p)
    (hc : ¬ p <:+: c) : ¬ p <:+: c ++ ['\n'] := by
  refine noInfix_append hc ?_ ?_
  · intro h
    cases p with
    | nil => exact hp rfl
    | cons a q =>
      have ha := h.subset (List.mem_cons_self a q)
      rcases List.mem_singleton.mp ha with rfl
      exact hnl (List.mem_cons_self _ _)
  · rintro k hk1 hk2 ⟨-, hpre⟩
    rcases hd : p.drop k with _ | ⟨x, xs⟩
    · exact drop_ne_nil_of_lt hk2 hd
    · rcases hpre with ⟨t, ht⟩
      rw [hd, List.cons_append] at ht
      injection ht with h1 _
      apply hnl
      have hx : x ∈ p.drop k := by rw [hd]; exact List.mem_cons_self x xs
      have hxp := ((List.drop_suffix k p).isInfix).subset hx
      rwa [h1] at hxp

theorem noInfix_flatten_nl {p : Str} (hp : p ≠ []) (hnl : ('\n' : Char) ∉ p) :
    ∀ ls : List Str, (∀ c ∈ ls, ¬ p <:+: c) →
      ¬ p <:+: (ls.map (fun l => l ++ ['\n'])).flatten := by
  intro ls
  induction ls with
  | nil =>
    intro _ h
    rw [List.map_nil, List.flatten_nil] at h
    exact hp (List.infix_nil.mp h)
  | cons c cs ih =>
    intro hall
    rw [List.map_cons, List.flatten_cons]
    refine noInfix_append (noInfix_chunk_nl hp hnl (hall c (List.mem_cons_self c cs)))
      (ih (fun d hd => hall d (List.mem_cons_of_mem c hd))) ?_
    rintro k hk1 hk2 ⟨hsuf, -⟩
    have h1 := suffix_getLast? hsuf (take_ne_nil_of hk1 hp)
    rw [List.getLast?_concat] at h1
    have h2 := getLast?_mem_of_eq h1.symm
    exact hnl (((List.take_prefix k p).isInfix).subset h2)

theorem R_clean_close (rows : List RankedRow)
    (hrows : ∀ r ∈ rows, cellCleanB (dateTextOf r) = true ∧
      cellCleanB r.stamped.row.team = true) :
    ¬ closeTableStr <:+: render_leaderboard_rows_html rows := by
  simp only [render_leaderboard_rows_html]
  by_cases hl : renderAllLines 1 rows = []
  · rw [if_pos hl]
    intro h
    exact absurd (List.infix_nil.mp h) (by decide)
  · rw [if_neg hl, joinNl_append_nl _ hl]
    exact noInfix_flatten_nl (by decide) (by decide) _ (renderAll_clean_close rows 1 hrows)

theorem R_clean_lbjs (rows : List RankedRow)
    (hrows : ∀ r ∈ rows, cellCleanB (dateTextOf r) = true ∧
      cellCleanB r.stamped.row.team = true) :
    ¬ lbjsStr <:+: render_leaderboard_rows_html rows := by
  simp only [render_leaderboard_rows_html]
  by_cases hl : renderAllLines 1 rows = []
  · rw [if_pos hl]
    intro h
    exact absurd (List.infix_nil.mp h) (by decide)
  · rw [if_neg hl, joinNl_append_nl _ hl]
    exact noInfix_flatten_nl (by decide) (by decide) _ (renderAll_clean_lbjs rows 1 hrows)

theorem R_last (rows : List RankedRow) :
    render_leaderboard_rows_html rows = [] ∨
      (render_leaderboard_rows_html rows).getLast? = some '\n' := by
  simp only [render_leaderboard_rows_html]
  by_cases hl : renderAllLines 1 rows = []
  · rw [if_pos hl]
    exact Or.inl rfl
  · rw [if_neg hl]
    exact Or.inr (List.getLast?_concat _)

theorem T_eq (rows : List RankedRow) :
    newTableHtml rows = tableBody rows ++ closeTableStr := by
  rw [newTableHtml, tableBody]
  have hf : tableFooter = spaces24 ++ closeTableStr := by decide
  rw [hf]
  simp [List.append_assoc]

theorem spaces24_suffix_body (rows : List RankedRow) : spaces24 <:+ tableBody rows :=
  ⟨headerHtml ++ '\n' :: render_leaderboard_rows_html rows,
    by simp [tableBody, List.append_assoc]⟩

theorem tableBody_last (rows : List RankedRow) : (tableBody rows).getLast? = some ' ' := by
  have h := suffix_getLast? (spaces24_suffix_body rows) (by decide)
  rw [h]
  decide

theorem body_clean_close (rows : List RankedRow)
    (hrows : ∀ r ∈ rows, cellCleanB (dateTextOf r) = true ∧
      cellCleanB r.stamped.row.team = true) :
    ¬ closeTableStr <:+: tableBody rows := by
  rw [tableBody]
  refine noInfix_pre_var _ _ _ (noInfix_of_hasSub (by decide)) ?_ (by decide)
  intro h
  rcases List.infix_cons_iff.mp h with hpre | hinf
  · exact noPre_cons_of_head (b := '<') (by decide) (by decide) hpre
  · exact noInfix_var_post _ _ _ (R_clean_close rows hrows)
      (noInfix_of_hasSub (by decide)) (by decide) hinf

theorem body_clean_lbjs (rows : List RankedRow)
    (hrows : ∀ r ∈ rows, cellCleanB (dateTextOf r) = true ∧
      cellCleanB r.stamped.row.team = true) :
    ¬ lbjsStr <:+: tableBody rows := by
  rw [tableBody]
  refine noInfix_pre_var _ _ _ (noInfix_of_hasSub (by decide)) ?_ (by decide)
  intro h
  rcases List.infix_cons_iff.mp h with hpre | hinf
  · exact noPre_cons_of_head (b := 'l') (by decide) (by decide) hpre
  · exact noInfix_var_post _ _ _ (R_clean_lbjs rows hrows)
      (noInfix_of_hasSub (by decide)) (by decide) hinf

theorem T_clean_lbjs (rows : List RankedRow)
    (hrows : ∀ r ∈ rows, cellCleanB (dateTextOf r) = true ∧
      cellCleanB r.stamped.row.team = true) :
    ¬ lbjsStr <:+: newTableHtml rows := by
  rw [T_eq]
  refine noInfix_append (body_clean_lbjs rows hrows) (noInfix_of_hasSub (by decide)) ?_
  rintro k hk1 hk2 ⟨hsuf, -⟩
  exact straddle_last (by decide) (tableBody_last rows) (by decide) k hk1 hsuf

theorem tableBody_len_ge (rows : List RankedRow) : 24 ≤ (tableBody rows).length := by
  rw [tableBody, List.length_append]
  have h : 24 ≤ headerHtml.length := by decide
  omega

theorem T_len (rows : List RankedRow) :
    (newTableHtml rows).length = (tableBody rows).length + closeTableStr.length := by
  rw [T_eq, List.length_append]

theorem T_take24 (rows : List RankedRow) : (newTableHtml rows).take 24 = spaces24 := by
  rw [newTableHtml, List.take_append_eq_append_take]
  have h1 : headerHtml.take 24 = spaces24 := by decide
  have h2 : 24 - headerHtml.length = 0 := by decide
  rw [h1, h2, List.take_zero, List.append_nil]

theorem hasPre_out_in_A {p d X : Str} {i n : Nat} (hn : n ≤ d.length)
    (hi : i + p.length ≤ n) : p <+: (d.take n ++ X).drop i ↔ p <+: d.drop i := by
  rw [List.drop_append_eq_append_drop]
  have hlt : (d.take n).length = n := by rw [List.length_take]; omega
  have h0 : i - (d.take n).length = 0 := by omega
  rw [h0, List.drop_zero]
  rw [prefix_append_iff_left (by rw [List.length_drop]; omega)]
  exact prefix_drop_take_iff hi

theorem matchLegacyAt_none_of {s : Str}
    (hno : hasPre srcLit (((s.dropWhile isWs).drop 7).dropWhile isWs) = false) :
    matchLegacyAt s = none := by
  simp only [matchLegacyAt]
  by_cases h1 : hasPre "<script".data (s.dropWhile isWs) = true
  · rw [if_pos h1]
    split
    · rfl
    · next t c rest heq =>
      by_cases h2 : isWs c = true
      · rw [if_pos h2, if_neg (by simp [hno])]
      · rw [if_neg h2]
  · rw [if_neg h1]

theorem matchLegacyAt_lbjs {s : Str} {n : Nat} (h : matchLegacyAt s = some n) :
    lbjsStr <:+: s := by
  have hpre : hasPre srcLit (((s.dropWhile isWs).drop 7).dropWhile isWs) = true := by
    by_contra hc
    rw [matchLegacyAt_none_of (Bool.eq_false_iff.mpr hc)] at h
    exact Option.noConfusion h
  have h1 : srcLit <+: ((s.dropWhile isWs).drop 7).dropWhile isWs := (hasPre_iff _ _).mp hpre
  have h2 : ((s.dropWhile isWs).drop 7).dropWhile isWs <:+ s :=
    (List.dropWhile_suffix _).trans ((List.drop_suffix _ _).trans (List.dropWhile_suffix _))
  have h3 : srcLit <:+: s := h1.isInfix.trans h2.isInfix
  exact (show lbjsStr <:+: srcLit by decide).trans h3

theorem removeLegacyAux_none : ∀ s : Str, ¬ lbjsStr <:+: s →
    ∀ i, removeLegacyAux s i = none := by
  intro s
  induction s with
  | nil => intro _ i; rfl
  | cons c rest ih =>
    intro hs i
    rw [removeLegacyAux]
    rcases hm : matchLegacyAt (c :: rest) with _ | len
    · exact ih (fun hinf => hs (List.infix_cons hinf)) (i + 1)
    · exact absurd (matchLegacyAt_lbjs hm) hs

theorem removeLegacyScript_id {s : Str} (hs : ¬ lbjsStr <:+: s) : removeLegacyScript s = s := by
  rw [removeLegacyScript, removeLegacyAux_none s hs 0]

/-- **C10** (amended): document injection is idempotent for well-formed inputs.
If the document contains the `<h1 id="leaderboard">` anchor, then the marked
`<table class="table performanceTable"` line, a newline strictly before that
marker and at or after the end of the anchor, and a closing `</table>`, and the
document nowhere contains `"leaderboard.js"`, and every rendered cell (date
text and team) contains neither `"</table>"` nor `"leaderboard.js"`, then the
first injection replaces exactly the marked region and a second injection run
on the result reproduces it byte for byte. -/
theorem c10_injection_idempotent (d : Str) (cl : CombinedLeaderboard)
    (a ts ls te0 : Nat)
    (h1 : findSub d anchorStr 0 = some a)
    (h2 : findSub d markerStr a = some ts)
    (h3 : rfindChar '\n' (d.take ts) = some ls)
    (h5 : a + anchorStr.length ≤ ls + 1)
    (h4 : findSub d closeTableStr ts = some te0)
    (h6 : hasSub lbjsStr d = false)
    (hcells : ∀ r ∈ cl.rows, cellCleanB (dateTextOf r) = true ∧
      cellCleanB r.stamped.row.team = true) :
    update_index_html_leaderboard d cl =
        some (d.take (ls + 1) ++ newTableHtml cl.rows ++
          d.drop (te0 + closeTableStr.length)) ∧
      update_index_html_leaderboard
          (d.take (ls + 1) ++ newTableHtml cl.rows ++
            d.drop (te0 + closeTableStr.length)) cl =
        some (d.take (ls + 1) ++ newTableHtml cl.rows ++
          d.drop (te0 + closeTableStr.length)) := by
  have hml : markerStr.length = 37 := by decide
  have hcl8 : closeTableStr.length = 8 := by decide
  have hH61 : 61 ≤ headerHtml.length := by decide
  have hbodyH : headerHtml.length ≤ (tableBody cl.rows).length := by
    rw [tableBody, List.length_append]
    omega
  have hbody24 : 24 ≤ (tableBody cl.rows).length := tableBody_len_ge cl.rows
  have hTlen : (newTableHtml cl.rows).length =
      (tableBody cl.rows).length + closeTableStr.length := T_len cl.rows
  have hTlen24 : 24 ≤ (newTableHtml cl.rows).length := by omega
  obtain ⟨-, ha2, ha3⟩ := (findSub_some_iff d anchorStr 0 a).mp h1
  obtain ⟨hts1, hm2, hm3⟩ := (findSub_some_iff d markerStr a ts).mp h2
  obtain ⟨hte1, hc2, hc3⟩ := (findSub_some_iff d closeTableStr ts te0).mp h4
  have hts_le : ts + markerStr.length ≤ d.length := by
    have h := ((hasPre_iff _ _).mp hm2).length_le
    rw [List.length_drop] at h
    omega
  have hte_le : te0 + closeTableStr.length ≤ d.length := by
    have h := ((hasPre_iff _ _).mp hc2).length_le
    rw [List.length_drop] at h
    omega
  obtain ⟨u, v, huv, hul, hv⟩ := rfindChar_decomp h3
  have htake_len : (d.take ts).length = ts := by
    rw [List.length_take]
    omega
  have hls_lt : ls + 1 ≤ ts := by
    have h := congrArg List.length huv
    rw [htake_len, List.length_append, List.length_cons] at h
    omega
  have hA_eq : d.take (ls + 1) = u ++ ['\n'] := by
    have h' : d.take (ls + 1) = (d.take ts).take (ls + 1) := by
      rw [List.take_take, min_eq_left hls_lt]
    rw [h', huv, ← hul, List.take_append_eq_append_take,
      List.take_of_length_le (by omega)]
    have h1' : u.length + 1 - u.length = 1 := by omega
    rw [h1', List.take_succ_cons, List.take_zero]
  have hA_len : (d.take (ls + 1)).length = ls + 1 := by
    rw [List.length_take]
    omega
  have hfirst : update_index_html_leaderboard d cl =
      some (removeLegacyScript (d.take (ls + 1) ++ newTableHtml cl.rows ++
        d.drop (te0 + closeTableStr.length))) := by
    simp only [update_index_html_leaderboard, h1, h2, h3, h4]
  have hd_not : ¬ lbjsStr <:+: d := noInfix_of_hasSub h6
  have hA_not : ¬ lbjsStr <:+: d.take (ls + 1) :=
    fun h => hd_not (h.trans (List.take_prefix _ _).isInfix)
  have hB_not : ¬ lbjsStr <:+: d.drop (te0 + closeTableStr.length) :=
    fun h => hd_not (h.trans (List.drop_suffix _ _).isInfix)
  have hTlast : (newTableHtml cl.rows).getLast? = some '>' := by
    rw [T_eq, suffix_getLast? (List.suffix_append _ _) (by decide)]
    decide
  have hout_not : ¬ lbjsStr <:+: d.take (ls + 1) ++ newTableHtml cl.rows ++
      d.drop (te0 + closeTableStr.length) := by
    rw [List.append_assoc]
    refine noInfix_append hA_not ?_ ?_
    · refine noInfix_append (T_clean_lbjs cl.rows hcells) hB_not ?_
      rintro k hk1 hk2 ⟨hsuf, -⟩
      exact straddle_last (c := '>') (by decide) hTlast (by decide) k hk1 hsuf
    · rintro k hk1 hk2 ⟨hsuf, -⟩
      refine straddle_last (c := '\n') (by decide) ?_ (by decide) k hk1 hsuf
      rw [hA_eq]
      exact List.getLast?_concat u
  have hout1 : update_index_html_leaderboard d cl =
      some (d.take (ls + 1) ++ newTableHtml cl.rows ++
        d.drop (te0 + closeTableStr.length)) := by
    rw [hfirst, removeLegacyScript_id hout_not]
  have hanchor2 : findSub (d.take (ls + 1) ++ newTableHtml cl.rows ++
      d.drop (te0 + closeTableStr.length)) anchorStr 0 = some a := by
    rw [List.append_assoc, findSub_some_iff]
    refine ⟨Nat.zero_le a, ?_, ?_⟩
    · refine (hasPre_iff _ _).mpr ?_
      rw [hasPre_out_in_A (by omega) h5]
      exact (hasPre_iff _ _).mp ha2
    · intro i hi0 hia
      refine Bool.eq_false_iff.mpr (fun hcon => ?_)
      have hp := (hasPre_iff _ _).mp hcon
      rw [hasPre_out_in_A (d := d) (i := i) (n := ls + 1) (p := anchorStr)
        (by omega) (by omega)] at hp
      have ht := (hasPre_iff _ _).mpr hp
      rw [ha3 i hi0 hia] at ht
      exact Bool.noConfusion ht
  have hmarker2 : findSub (d.take (ls + 1) ++ newTableHtml cl.rows ++
      d.drop (te0 + closeTableStr.length)) markerStr a = some (ls + 1 + 24) := by
    rw [List.append_assoc, findSub_some_iff]
    refine ⟨by omega, ?_, ?_⟩
    · have hsplit : (d.take (ls + 1) ++ (newTableHtml cl.rows ++
          d.drop (te0 + closeTableStr.length))).drop (ls + 1 + 24) =
          (newTableHtml cl.rows ++ d.drop (te0 + closeTableStr.length)).drop 24 := by
        rw [List.drop_append_eq_append_drop,
          List.drop_eq_nil_of_le (show (d.take (ls + 1)).length ≤ ls + 1 + 24 by
            rw [hA_len]; omega), List.nil_append, hA_len]
        have h24 : ls + 1 + 24 - (ls + 1) = 24 := by omega
        rw [h24]
      rw [hsplit, List.drop_append_eq_append_drop,
        Nat.sub_eq_zero_of_le hTlen24, List.drop_zero]
      refine (hasPre_iff _ _).mpr ?_
      rw [newTableHtml, List.drop_append_eq_append_drop]
      have h24h : 24 - headerHtml.length = 0 := by decide
      rw [h24h, List.drop_zero, List.append_assoc]
      exact ((hasPre_iff _ _).mp (by decide)).trans (List.prefix_append _ _)
    · intro i hia hi
      refine Bool.eq_false_iff.mpr (fun hcon => ?_)
      have hp := (hasPre_iff _ _).mp hcon
      rcases le_or_lt (i + markerStr.length) (ls + 1) with hin | hstr
      · rw [hasPre_out_in_A (by omega) hin] at hp
        have ht := (hasPre_iff _ _).mpr hp
        rw [hm3 i hia (by omega)] at ht
        exact Bool.noConfusion ht
      · rcases Nat.lt_or_ge i (ls + 1) with hiA | hiT
        · rw [List.drop_append_eq_append_drop] at hp
          have h0 : i - (d.take (ls + 1)).length = 0 := by rw [hA_len]; omega
          rw [h0, List.drop_zero] at hp
          obtain ⟨-, hdroppre⟩ :=
            prefix_append_long hp
              (show (List.drop i (d.take (ls + 1))).length ≤ markerStr.length by
                rw [List.length_drop, hA_len]; omega)
          have hkl : (List.drop i (d.take (ls + 1))).length = ls + 1 - i := by
            rw [List.length_drop, hA_len]
          rw [hkl] at hdroppre
          rw [prefix_append_iff_left (show (markerStr.drop (ls + 1 - i)).length ≤
            (newTableHtml cl.rows).length by rw [List.length_drop]; omega)] at hdroppre
          rw [newTableHtml] at hdroppre
          rw [prefix_append_iff_left (show (markerStr.drop (ls + 1 - i)).length ≤
            headerHtml.length by rw [List.length_drop]; omega)] at hdroppre
          have hdec : ∀ m, m < markerStr.length → 0 < m →
              hasPre (markerStr.drop m) headerHtml = false := by decide
          have hmmx := (hasPre_iff _ _).mpr hdroppre
          rw [hdec (ls + 1 - i) (by omega) (by omega)] at hmmx
          exact Bool.noConfusion hmmx
        · rw [List.drop_append_eq_append_drop,
            List.drop_eq_nil_of_le (show (d.take (ls + 1)).length ≤ i by
              rw [hA_len]; omega), List.nil_append, hA_len] at hp
          rw [List.drop_append_eq_append_drop,
            Nat.sub_eq_zero_of_le (show i - (ls + 1) ≤ (newTableHtml cl.rows).length by
              omega), List.drop_zero] at hp
          rw [prefix_append_iff_left (show markerStr.length ≤
            ((newTableHtml cl.rows).drop (i - (ls + 1))).length by
              rw [List.length_drop]; omega)] at hp
          rw [newTableHtml, List.drop_append_eq_append_drop,
            Nat.sub_eq_zero_of_le (show i - (ls + 1) ≤ headerHtml.length by omega),
            List.drop_zero] at hp
          rw [prefix_append_iff_left (show markerStr.length ≤
            (headerHtml.drop (i - (ls + 1))).length by
              rw [List.length_drop]; omega)] at hp
          have hdec2 : ∀ j, j < 24 → hasPre markerStr (headerHtml.drop j) = false := by
            decide
          have hmmx := (hasPre_iff _ _).mpr hp
          rw [hdec2 (i - (ls + 1)) (by omega)] at hmmx
          exact Bool.noConfusion hmmx
  have hrfind2 : rfindChar '\n' ((d.take (ls + 1) ++ newTableHtml cl.rows ++
      d.drop (te0 + closeTableStr.length)).take (ls + 1 + 24)) = some ls := by
    have htk : (d.take (ls + 1) ++ newTableHtml cl.rows ++
        d.drop (te0 + closeTableStr.length)).take (ls + 1 + 24) =
        d.take (ls + 1) ++ spaces24 := by
      rw [List.append_assoc, List.take_append_eq_append_take,
        List.take_of_length_le (show (d.take (ls + 1)).length ≤ ls + 1 + 24 by
          rw [hA_len]; omega), hA_len]
      have h24 : ls + 1 + 24 - (ls + 1) = 24 := by omega
      rw [h24, List.take_append_eq_append_take,
        Nat.sub_eq_zero_of_le hTlen24, List.take_zero, List.append_nil]
      rw [T_take24]
    rw [htk, rfindChar_append_none (c := '\n') (Y := spaces24) (by decide), hA_eq,
      rfindChar_append_some (c := '\n') (Y := ['\n']) (j := 0) (by decide),
      hul, Nat.add_zero]
  have hclose2 : findSub (d.take (ls + 1) ++ newTableHtml cl.rows ++
      d.drop (te0 + closeTableStr.length)) closeTableStr (ls + 1 + 24) =
      some (ls + 1 + (tableBody cl.rows).length) := by
    rw [List.append_assoc, findSub_some_iff]
    refine ⟨by omega, ?_, ?_⟩
    · rw [List.drop_append_eq_append_drop,
        List.drop_eq_nil_of_le (show (d.take (ls + 1)).length ≤
          ls + 1 + (tableBody cl.rows).length by rw [hA_len]; omega),
        List.nil_append, hA_len]
      have hidx : ls + 1 + (tableBody cl.rows).length - (ls + 1) =
          (tableBody cl.rows).length := by omega
      rw [hidx, List.drop_append_eq_append_drop,
        Nat.sub_eq_zero_of_le (show (tableBody cl.rows).length ≤
          (newTableHtml cl.rows).length by omega),
        List.drop_zero, T_eq, List.drop_left]
      exact (hasPre_iff _ _).mpr (List.prefix_append _ _)
    · intro i hi0 hi
      refine Bool.eq_false_iff.mpr (fun hcon => ?_)
      have hp := (hasPre_iff _ _).mp hcon
      rw [List.drop_append_eq_append_drop,
        List.drop_eq_nil_of_le (show (d.take (ls + 1)).length ≤ i by
          rw [hA_len]; omega), List.nil_append, hA_len] at hp
      rw [List.drop_append_eq_append_drop,
        Nat.sub_eq_zero_of_le (show i - (ls + 1) ≤ (newTableHtml cl.rows).length by
          omega), List.drop_zero] at hp
      rw [prefix_append_iff_left (show closeTableStr.length ≤
        ((newTableHtml cl.rows).drop (i - (ls + 1))).length by
          rw [List.length_drop]; omega)] at hp
      rw [T_eq, List.drop_append_eq_append_drop,
        Nat.sub_eq_zero_of_le (show i - (ls + 1) ≤ (tableBody cl.rows).length by
          omega), List.drop_zero] at hp
      rcases le_or_lt closeTableStr.length
          ((tableBody cl.rows).length - (i - (ls + 1))) with hm | hm
      · rw [prefix_append_iff_left (show closeTableStr.length ≤
          ((tableBody cl.rows).drop (i - (ls + 1))).length by
            rw [List.length_drop]; omega)] at hp
        exact body_clean_close cl.rows hcells
          (hp.isInfix.trans (List.drop_suffix _ _).isInfix)
      · obtain ⟨htk2, -⟩ :=
          prefix_append_long hp
            (show (List.drop (i - (ls + 1)) (tableBody cl.rows)).length ≤
              closeTableStr.length by rw [List.length_drop]; omega)
        have hk : (List.drop (i - (ls + 1)) (tableBody cl.rows)).length =
            (tableBody cl.rows).length - (i - (ls + 1)) := List.length_drop _ _
        apply straddle_last (p := closeTableStr) (c := ' ') (by decide)
          (tableBody_last cl.rows) (by decide)
          (List.drop (i - (ls + 1)) (tableBody cl.rows)).length
          (by rw [hk]; omega)
        rw [htk2]
        exact List.drop_suffix _ _
  have htake : (d.take (ls + 1) ++ newTableHtml cl.rows ++
      d.drop (te0 + closeTableStr.length)).take (ls + 1) = d.take (ls + 1) := by
    rw [List.append_assoc, List.take_append_eq_append_take,
      List.take_of_length_le (show (d.take (ls + 1)).length ≤ ls + 1 by
        rw [hA_len]),
      Nat.sub_eq_zero_of_le (show ls + 1 ≤ (d.take (ls + 1)).length by
        rw [hA_len]), List.take_zero, List.append_nil]
  have hdrop : (d.take (ls + 1) ++ newTableHtml cl.rows ++
      d.drop (te0 + closeTableStr.length)).drop
        (ls + 1 + (tableBody cl.rows).length + closeTableStr.length) =
      d.drop (te0 + closeTableStr.length) := by
    rw [List.drop_append_eq_append_drop,
      List.drop_eq_nil_of_le (show (d.take (ls + 1) ++ newTableHtml cl.rows).length ≤
        ls + 1 + (tableBody cl.rows).length + closeTableStr.length by
          rw [List.length_append, hA_len]; omega),
      List.nil_append]
    have h0 : ls + 1 + (tableBody cl.rows).length + closeTableStr.length -
        (d.take (ls + 1) ++ newTableHtml cl.rows).length = 0 := by
      rw [List.length_append, hA_len]
      omega
    rw [h0, List.drop_zero]
  have hsecond : update_index_html_leaderboard (d.take (ls + 1) ++
      newTableHtml cl.rows ++ d.drop (te0 + closeTableStr.length)) cl =
      some (d.take (ls + 1) ++ newTableHtml cl.rows ++
        d.drop (te0 + closeTableStr.length)) := by
    simp only [update_index_html_leaderboard, hanchor2, hmarker2, hrfind2, hclose2]
    rw [htake, hdrop, removeLegacyScript_id hout_not]
  exact ⟨hout1, hsecond⟩

/-- **C10** counterexample: on a document whose marked table line is not
preceded by a newline, `table_replace_start` falls back to the marker position,
so the first injection leaves the header's 24-space indentation in front of the
marker; the second injection then cuts at the preceding newline of the injected
markup and duplicates that indentation — the two runs succeed but produce
different table markup, refuting unconditional idempotence. -/
theorem c10_counterexample :
    (update_index_html_leaderboard cxDoc cxCl).isSome = true ∧
    ((update_index_html_leaderboard cxDoc cxCl).bind
        (fun r => update_index_html_leaderboard r cxCl)).isSome = true ∧
    (update_index_html_leaderboard cxDoc cxCl).getD [] ≠
      ((update_index_html_leaderboard cxDoc cxCl).bind
        (fun r => update_index_html_leaderboard r cxCl)).getD [] :=
  ⟨by decide, by decide, by decide⟩

/-- Witness for `c10_injection_idempotent`: a concrete document with the
anchor, a newline before the marked table line, a closing tag, and no
`"leaderboard.js"`, rendered with an empty row list. -/
theorem c10_injection_idempotent_witness :
    findSub wDoc anchorStr 0 = some 0 ∧
    findSub wDoc markerStr 0 = some 27 ∧
    rfindChar '\n' (wDoc.take 27) = some 26 ∧
    0 + anchorStr.length ≤ 26 + 1 ∧
    findSub wDoc closeTableStr 27 = some 66 ∧
    hasSub lbjsStr wDoc = false ∧
    (update_index_html_leaderboard wDoc wCl =
        some (wDoc.take (26 + 1) ++ newTableHtml wCl.rows ++
          wDoc.drop (66 + closeTableStr.length)) ∧
      update_index_html_leaderboard
          (wDoc.take (26 + 1) ++ newTableHtml wCl.rows ++
            wDoc.drop (66 + closeTableStr.length)) wCl =
        some (wDoc.take (26 + 1) ++ newTableHtml wCl.rows ++
          wDoc.drop (66 + closeTableStr.length))) :=
  ⟨by decide, by decide, by decide, by decide, by decide, by decide,
    c10_injection_idempotent wDoc wCl 0 27 26 66 (by decide) (by decide) (by decide)
      (by decide) (by decide) (by decide) (by simp [wCl])⟩
